import Mathlib

/-!
Shallow embedding of the slot-allocation / occupancy-consistency subsystem of
the pharmacy LED application (src/10thgenUI.py, final generation, lines
1516-3647).  Python strings are modelled as lists of characters, SQLite
tables as lists of records in insertion order, `db_fetchone` point queries as
`List.find?`, and `UPDATE` statements as maps over the table.  Fields of the
prescription table that no verified operation reads (medication, quantity,
date_added) are omitted from the record.
-/

namespace Pharm

/-- A Python `str`, modelled as its list of characters. -/
abbrev Str := List Char

def smallStr : Str := "small".toList
def largeStr : Str := "large".toList
def overflowStr : Str := "Overflow".toList

/-- One row of the `slots` table: id (AUTOINCREMENT primary key), shelf, row
letter, column number, occupied flag (stored as 0/1, modelled as Bool). -/
structure Slot where
  id : Nat
  shelf : Str
  row : Char
  col : Nat
  occupied : Bool
deriving DecidableEq

/-- One row of the `prescriptions` table (medication/quantity/date omitted:
no verified operation reads them). `basket` is the nullable basket_size TEXT,
`slotId` the nullable slot reference. -/
structure Prescription where
  id : Nat
  patientId : Nat
  basket : Option Str
  slotId : Option Nat
deriving DecidableEq

/-- One row of the `shelves` table (the id column is never consulted). -/
structure ShelfRec where
  name : Str
  rowsCount : Nat
  colsCount : Nat
deriving DecidableEq

/-- One row of the `letter_sections` table: raw bound texts as stored. -/
structure SectionRow where
  letter : Str
  shelf : Str
  lower : Str
  upper : Str
deriving DecidableEq

/-- One row of the `patients` table (address/created_at omitted). -/
structure Patient where
  id : Nat
  name : Str
deriving DecidableEq

/-- The database state. -/
structure DB where
  slots : List Slot
  prescriptions : List Prescription
  shelves : List ShelfRec
  sections : List SectionRow
  patients : List Patient
deriving DecidableEq

/-! ### Python primitives -/

/-- Python `range(a, a + n)` (as a list, like list(range)). -/
def natRangeAux : Nat → Nat → List Nat
  | _, 0 => []
  | a, n + 1 => a :: natRangeAux (a + 1) n

/-- Python `range(a, b + 1)` over naturals. -/
def colsRange (a b : Nat) : List Nat := natRangeAux a (b + 1 - a)

def isWs (c : Char) : Bool := c.isWhitespace

/-- Python `str.strip()`: drop whitespace from both ends. -/
def trim (s : Str) : Str := ((s.dropWhile isWs).reverse.dropWhile isWs).reverse

/-- Python `str.upper()` (ASCII part; non-ASCII never survives the A-Z checks). -/
def upperStr (s : Str) : Str := s.map Char.toUpper

/-- Python `str.lower()` (ASCII part). -/
def lowerStr (s : Str) : Str := s.map Char.toLower

/-- Python `str.isdigit()`: nonempty and all digits. -/
def isDigitStr (s : Str) : Bool := !s.isEmpty && s.all Char.isDigit

/-- Value of a digit string (most significant first). -/
def digitsToNat (s : Str) : Nat := s.foldl (fun a c => 10 * a + (c.toNat - 48)) 0

/-- Python `int(text)`: optional surrounding whitespace, optional single sign,
then decimal digits; anything else raises (modelled as none; digit-group
underscores are not modelled, no caller ever passes them). -/
def parseInt? (s : Str) : Option Int :=
  match trim s with
  | [] => none
  | c :: cs =>
    if c == '+' then (if isDigitStr cs then some (digitsToNat cs : Int) else none)
    else if c == '-' then (if isDigitStr cs then some (-(digitsToNat cs : Int)) else none)
    else (if isDigitStr (c :: cs) then some (digitsToNat (c :: cs) : Int) else none)

/-- Decimal rendering of a natural (fuel-based structural recursion so that it
reduces in the kernel; the fuel `n + 1` always suffices since `n / 10`
strictly decreases). -/
def natToDecAux : Nat → Nat → Str
  | 0, _ => []
  | fuel + 1, n =>
    if n < 10 then [Nat.digitChar n]
    else natToDecAux fuel (n / 10) ++ [Nat.digitChar (n % 10)]

/-- Decimal rendering of a natural, as Python f-string formatting produces. -/
def natToDec (n : Nat) : Str := natToDecAux (n + 1) n

/-- Python `str.replace(pat, rep)` body: at each position, if the (nonempty)
pattern matches, emit the replacement and jump past the match, else move one
character.  Fuel-based structural recursion (each step consumes at least one
character, so fuel `s.length` suffices). -/
def replaceStrAux : Nat → Str → Str → Str → Str
  | 0, s, _, _ => s
  | fuel + 1, s, pat, rep =>
    if !pat.isEmpty && pat.isPrefixOf s && !s.isEmpty then
      rep ++ replaceStrAux fuel (s.drop pat.length) pat rep
    else
      match s with
      | [] => []
      | c :: cs => c :: replaceStrAux fuel cs pat rep

/-- Python `str.replace(pat, rep)`: replace non-overlapping occurrences left to
right (never called with an empty pattern). -/
def replaceStr (s pat rep : Str) : Str := replaceStrAux s.length s pat rep

/-- Python `str.split(sep)` with a one-character separator: keeps empty pieces. -/
def splitOnChar (sep : Char) : Str → List Str
  | [] => [[]]
  | c :: cs =>
    if c == sep then [] :: splitOnChar sep cs
    else
      match splitOnChar sep cs with
      | [] => [[c]]
      | t :: ts => (c :: t) :: ts

def splitWsAux : Str → Str → List Str
  | [], acc => if acc.isEmpty then [] else [acc.reverse]
  | c :: cs, acc =>
    if isWs c then
      (if acc.isEmpty then splitWsAux cs [] else acc.reverse :: splitWsAux cs [])
    else splitWsAux cs (c :: acc)

/-- Python `str.split()` with no argument: split on whitespace runs, dropping
empty pieces. -/
def splitWs (s : Str) : List Str := splitWsAux s []

/-! ### Point queries (SQL `SELECT ... WHERE` + `fetchone`) -/

def slotById (i : Nat) (s : Slot) : Bool := s.id == i

def slotAtPos (shelf : Str) (r : Char) (c : Nat) (s : Slot) : Bool :=
  s.shelf == shelf && s.row == r && s.col == c

/-! ### Source functions (src/10thgenUI.py, line numbers of the final copy) -/

/-- `slot_id_to_label` (line 1516): look the slot up by id and format
shelf-rowcol; empty string when the id does not resolve. -/
def slot_id_to_label (db : DB) (sid : Nat) : Str :=
  match db.slots.find? (slotById sid) with
  | none => []
  | some s => s.shelf ++ '-' :: s.row :: natToDec s.col

/-- `slot_id_to_tuple` (line 1660). -/
def slot_id_to_tuple (db : DB) (sid : Nat) : Option (Str × Char × Nat) :=
  (db.slots.find? (slotById sid)).map fun s => (s.shelf, s.row, s.col)

/-- `rows_range` (line 1649): `[chr(i) for i in range(ord(start_row), ord(end_row)+1)]`. -/
def rows_range (startRow endRow : Char) : List Char :=
  (natRangeAux startRow.toNat (endRow.toNat + 1 - startRow.toNat)).map Char.ofNat

/-- `parse_bound` (line 1654): parse a bound text like "A1" into (row, col). -/
def parse_bound (boundText : Str) : Option (Char × Nat) :=
  if boundText.isEmpty then none
  else
    match upperStr (trim boundText) with
    | [] => none
    | rowc :: rest =>
      if (rowc :: rest).length < 2 then none
      else if !rowc.isAlpha then none
      else
        match parseInt? rest with
        | none => none
        | some col =>
          if ¬('A' ≤ rowc ∧ rowc ≤ 'Z') then none
          else if col ≤ 0 then none
          else some (rowc, col.toNat)

/-- `label_to_slot_id` (line 1677): accepts "F-A61", "F-A-61" or a numeric id.
A negative parsed column and a non-single-character row text are modelled as a
failed lookup directly, since stored columns are naturals and stored rows are
single characters. -/
def label_to_slot_id (db : DB) (label : Str) : Option Nat :=
  if label.isEmpty then none
  else
    let s := replaceStr (replaceStr (upperStr (trim label)) ['-', '-'] ['-']) [' '] []
    if isDigitStr s then
      match db.slots.find? (slotById (digitsToNat s)) with
      | some _ => some (digitsToNat s)
      | none => none
    else
      match splitOnChar '-' s with
      | [shelf, rowcol] =>
        (match rowcol with
         | r0 :: c0 :: ctail =>
           (match parseInt? (c0 :: ctail) with
            | none => none
            | some col =>
              if col < 0 then none
              else (db.slots.find? (slotAtPos shelf r0 col.toNat)).map Slot.id)
         | _ => none)
      | [shelf, rowPart, coltxt] =>
        (match parseInt? coltxt with
         | none => none
         | some col =>
           match rowPart with
           | [r1] =>
             if col < 0 then none
             else (db.slots.find? (slotAtPos shelf r1 col.toNat)).map Slot.id
           | _ => none)
      | _ => none

/-- `next_col_partner_slot_id` (line 1711): the adjacent partner slot id
(same shelf/row, col+1) or none. -/
def next_col_partner_slot_id (db : DB) (sid : Nat) : Option Nat :=
  match slot_id_to_tuple db sid with
  | none => none
  | some (sh, r, c) => (db.slots.find? (slotAtPos sh r (c + 1))).map Slot.id

/-- The test `(basket or "small").lower() == "large"` used all over the source. -/
def isLarge (basket : Option Str) : Bool := lowerStr (basket.getD smallStr) == largeStr

/-- `expand_slots_for_large_display_or_freeing` (line 1721). -/
def expand_slots_for_large_display_or_freeing (db : DB) (prid : Nat) : List Nat :=
  match db.prescriptions.find? (fun p => p.id == prid) with
  | none => []
  | some p =>
    match p.slotId with
    | none => []
    | some sid =>
      if sid == 0 then []
      else if !(isLarge p.basket) then [sid]
      else
        match next_col_partner_slot_id db sid with
        | some partner => [sid, partner]
        | none => [sid]

/-! ### Occupancy ledger -/

def setOcc (b : Bool) (s : Slot) : Slot := { s with occupied := b }

/-- `UPDATE slots SET occupied=1 WHERE id=?`. -/
def markOne (slots : List Slot) (i : Nat) : List Slot :=
  slots.map fun s => if s.id == i then setOcc true s else s

/-- `UPDATE slots SET occupied=0 WHERE id=?`. -/
def unmarkOne (slots : List Slot) (i : Nat) : List Slot :=
  slots.map fun s => if s.id == i then setOcc false s else s

/-- `mark_slots_free` (line 1836). -/
def mark_slots_free (db : DB) (sids : List Nat) : DB :=
  { db with slots := sids.foldl unmarkOne db.slots }

/-- `mark_slots_occupied` (line 1828). -/
def mark_slots_occupied (db : DB) (sids : List Nat) : DB :=
  { db with slots := sids.foldl markOne db.slots }

/-- `UPDATE slots SET occupied=0` (clear every flag). -/
def clearAll (slots : List Slot) : List Slot := slots.map (setOcc false)

/-- The `seen` set built by `repair_slot_occupancy` (line 1779), as a list:
for every prescription with a non-null, nonzero slot reference, the reference
itself and, for a large basket, its column+1 partner when that slot exists.
(The Python code collects these into a set; marking is order-insensitive and
idempotent, so a list with possible duplicates is an equivalent model.) -/
def seenList (db : DB) : List Nat :=
  db.prescriptions.flatMap fun p =>
    match p.slotId with
    | none => []
    | some sid =>
      if sid == 0 then []
      else
        (if isLarge p.basket then (next_col_partner_slot_id db sid).toList else []) ++ [sid]

/-- `repair_slot_occupancy` (line 1779): set every occupied flag to 0, then
mark every slot of the seen set occupied. -/
def repair_slot_occupancy (db : DB) : DB :=
  { db with slots := (seenList db).foldl markOne (clearAll db.slots) }

/-! ### Deletion path -/

/-- One loop iteration of `delete_selected_prescriptions` (line 3016): free the
prescription's slot(s) — unconditionally — and delete the prescription row. -/
def delete_one_prescription (db : DB) (prid : Nat) : DB :=
  match db.prescriptions.find? (fun p => p.id == prid) with
  | none => db
  | some p =>
    let db1 :=
      match p.slotId with
      | none => db
      | some sid =>
        if sid == 0 then db
        else if isLarge p.basket then
          mark_slots_free db
            ((expand_slots_for_large_display_or_freeing db prid).filter fun x => !(x == 0))
        else mark_slots_free db [sid]
    { db1 with prescriptions := db1.prescriptions.filter fun q => !(q.id == prid) }

/-- `delete_selected_prescriptions` (line 3016) over a selection of ids. -/
def delete_selected_prescriptions (db : DB) (sel : List Nat) : DB :=
  sel.foldl delete_one_prescription db

/-! ### Shelf population and editing -/

/-- AUTOINCREMENT id for the next inserted slot row (max existing id + 1). -/
def nextSlotId (db : DB) : Nat := (db.slots.map Slot.id).foldl max 0 + 1

/-- The slot rows `populate_slots_for_shelf` inserts, in insertion order:
row letters chr(65+i) for i < rows, columns 1..cols, all free. -/
def newSlotsFor (startId : Nat) (name : Str) (rows cols : Nat) : List Slot :=
  (natRangeAux 0 rows).flatMap fun i =>
    (natRangeAux 1 cols).map fun c =>
      { id := startId + i * cols + (c - 1), shelf := name,
        row := Char.ofNat (65 + i), col := c, occupied := false }

/-- `populate_slots_for_shelf` (line 1757): a no-op as soon as the shelf has
ANY slot records; otherwise bulk-create the full extent. -/
def populate_slots_for_shelf (db : DB) (name : Str) (rows cols : Nat) : DB :=
  if 0 < (db.slots.filter fun s => s.shelf == name).length then db
  else { db with slots := db.slots ++ newSlotsFor (nextSlotId db) name rows cols }

/-- The metadata-update + populate tail of `apply_edit` (line 3365):
`UPDATE shelves SET rows_count=?, cols_count=? WHERE name=?` then
`populate_slots_for_shelf(new_name, rows, cols)`. -/
def applyEditMeta (db : DB) (newName : Str) (rows cols : Nat) : DB :=
  populate_slots_for_shelf
    { db with
      shelves := db.shelves.map fun sh =>
        if sh.name == newName then { sh with rowsCount := rows, colsCount := cols } else sh }
    newName rows cols

/-- `apply_edit` (line 3365), GUI confirmations stripped; `none` models the
"New shelf name already exists" error return. -/
def apply_edit (db : DB) (current newName : Str) (rows cols : Nat) : Option DB :=
  if newName == current then some (applyEditMeta db newName rows cols)
  else if db.shelves.any (fun sh => sh.name == newName) then none
  else
    some (applyEditMeta
      { db with
        shelves := db.shelves.map fun sh =>
          if sh.name == current then { sh with name := newName } else sh,
        slots := db.slots.map fun s =>
          if s.shelf == current then { s with shelf := newName } else s,
        sections := db.sections.map fun t =>
          if t.shelf == current then { t with shelf := newName } else t }
      newName rows cols)

/-! ### Letter sections -/

/-- `get_letter_section` (line 1810): none when the row is missing, any field
is blank, or either bound fails to parse. -/
def get_letter_section (db : DB) (letter : Str) :
    Option (Str × Char × Nat × Char × Nat) :=
  match db.sections.find? (fun t => t.letter == letter) with
  | none => none
  | some t =>
    if t.shelf.isEmpty || t.lower.isEmpty || t.upper.isEmpty then none
    else
      match parse_bound t.lower, parse_bound t.upper with
      | some lo, some up => some (t.shelf, lo.1, lo.2, up.1, up.2)
      | _, _ => none

/-- `get_overflow_section` (line 1824). -/
def get_overflow_section (db : DB) : Option (Str × Char × Nat × Char × Nat) :=
  get_letter_section db overflowStr

/-! ### Section scan -/

/-- `SELECT MAX(col) FROM slots WHERE shelf=? AND row=?`: none when the row
has no slots at all (SQL NULL). -/
def maxColOpt (db : DB) (shelf : Str) (r : Char) : Option Nat :=
  if ((db.slots.filter fun s => s.shelf == shelf && s.row == r).map Slot.col).isEmpty
  then none
  else some (((db.slots.filter fun s => s.shelf == shelf && s.row == r).map Slot.col).foldl max 0)

/-- Loop body of `find_slot_in_section` for one column `c` of row `r`
(lines 1865-1881): missing slot or occupied slot means continue; a small
basket returns the slot; a large basket additionally requires the col+1
neighbour to exist and be free. -/
def fitAt (db : DB) (shelf : Str) (basket : Str) (r : Char) (c : Nat) :
    Option (List Nat) :=
  match db.slots.find? (slotAtPos shelf r c) with
  | none => none
  | some s1 =>
    if s1.occupied then none
    else if basket == largeStr then
      match db.slots.find? (slotAtPos shelf r (c + 1)) with
      | none => none
      | some s2 => if s2.occupied then none else some [s1.id, s2.id]
    else some [s1.id]

/-- The column loop of `find_slot_in_section`: first fit in the given column
order. -/
def scanRow (db : DB) (shelf : Str) (basket : Str) (r : Char) :
    List Nat → Option (List Nat)
  | [] => none
  | c :: cs =>
    match fitAt db shelf basket r c with
    | some sids => some sids
    | none => scanRow db shelf basket r cs

/-- One iteration of the row loop of `find_slot_in_section` (lines 1855-1881):
`c_start = start_col if r == start_row else 1`,
`c_end = end_col if r == end_row else 10000` (the "safe cap"), skip the row
when `MAX(col)` is NULL or 0, otherwise clamp `c_end` by the row's populated
maximum and scan the columns in order. -/
def rowOutcome (db : DB) (shelf : Str) (basket : Str) (sr : Char) (sc : Nat)
    (er : Char) (ec : Nat) (r : Char) : Option (List Nat) :=
  match maxColOpt db shelf r with
  | none => none
  | some m =>
    if m == 0 then none
    else scanRow db shelf basket r
      (colsRange (if r == sr then sc else 1) (min (if r == er then ec else 10000) m))

/-- The row loop of `find_slot_in_section`: first row whose scan fits,
returning `(slot_ids, shelf_name)`. -/
def findRows (db : DB) (shelf : Str) (basket : Str) (sr : Char) (sc : Nat)
    (er : Char) (ec : Nat) : List Char → Option (List Nat × Str)
  | [] => none
  | r :: rs =>
    match rowOutcome db shelf basket sr sc er ec r with
    | some sids => some (sids, shelf)
    | none => findRows db shelf basket sr sc er ec rs

/-- `find_slot_in_section` (line 1849). -/
def find_slot_in_section (db : DB) (shelf : Str) (sr : Char) (sc : Nat)
    (er : Char) (ec : Nat) (basket : Str) : Option (List Nat × Str) :=
  findRows db shelf basket sr sc er ec (rows_range sr er)

/-- `find_next_available_slot_primary` (line 1884). -/
def find_next_available_slot_primary (db : DB) (letter : Str) (basket : Str) :
    Option (List Nat × Str) :=
  match get_letter_section db letter with
  | none => none
  | some (sh, sr, sc, er, ec) => find_slot_in_section db sh sr sc er ec basket

/-- `find_next_available_slot_with_overflow` (line 1891). -/
def find_next_available_slot_with_overflow (db : DB) (letter : Str)
    (basket : Str) : Option (List Nat × Str) :=
  match find_next_available_slot_primary db letter basket with
  | some res => some res
  | none =>
    match get_overflow_section db with
    | none => none
    | some (sh, sr, sc, er, ec) => find_slot_in_section db sh sr sc er ec basket

/-! ### Patient letter and section membership -/

/-- `get_patient_letter` (line 1904).  The result `none` models the uncaught
IndexError that `name.strip().split()[-1]` raises on a whitespace-only
name (a nonempty name with no tokens); every non-raising path yields `some`. -/
def get_patient_letter (db : DB) (pid : Nat) : Option Str :=
  match db.patients.find? (fun p => p.id == pid) with
  | none => some ['A']
  | some p =>
    if p.name.isEmpty then some ['A']
    else
      match (splitWs (trim p.name)).getLast? with
      | none => none
      | some last =>
        match last with
        | [] => some ['A']
        | ch :: _ => some [ch.toUpper]

/-- `is_slot_in_letter_section` (line 1911). -/
def is_slot_in_letter_section (db : DB) (letter : Str) (sid : Nat) : Bool :=
  if letter == overflowStr then true
  else
    match get_letter_section db letter with
    | none => true
    | some (sh, sr, sc, er, ec) =>
      match slot_id_to_tuple db sid with
      | none => true
      | some (sname, row, col) =>
        if sname != sh then false
        else if row < sr then false
        else if row > er then false
        else if row == sr && col < sc then false
        else if row == er && col > ec then false
        else true

/-! ### Well-formedness of a database state

These are invariants every state reachable through the application satisfies:
slot ids are unique (AUTOINCREMENT primary key), positive, and no two slot
records share an address. -/

def WFdb (db : DB) : Prop :=
  (∀ s ∈ db.slots, ∀ t ∈ db.slots, s.id = t.id → s = t) ∧
  (∀ s ∈ db.slots, ∀ t ∈ db.slots,
    s.shelf = t.shelf → s.row = t.row → s.col = t.col → s = t) ∧
  (∀ s ∈ db.slots, 1 ≤ s.id)

instance (db : DB) : Decidable (WFdb db) := by
  unfold WFdb
  infer_instance

/-! ### Characterization of the section scan

`fitCond` says position (r, c) of the shelf holds a free slot that fits the
basket (for a large basket the col+1 neighbour also exists and is free);
`colOK` is the column window the scan uses for row r (`start_col` on the
first row, 1 otherwise; `end_col` on the last row, the 10000 safe cap
otherwise — the additional clamp to the row's populated maximum column is
subsumed by slot existence in `fitCond`); `scanCand` is a candidate the scan
can return. -/

def fitCond (db : DB) (shelf : Str) (basket : Str) (r : Char) (c : Nat) : Prop :=
  ∃ s ∈ db.slots, s.shelf = shelf ∧ s.row = r ∧ s.col = c ∧ s.occupied = false ∧
    (basket = largeStr →
      ∃ s2 ∈ db.slots, s2.shelf = shelf ∧ s2.row = r ∧ s2.col = c + 1 ∧
        s2.occupied = false)

def colOK (sr : Char) (sc : Nat) (er : Char) (ec : Nat) (r : Char) (c : Nat) : Prop :=
  (if r = sr then sc else 1) ≤ c ∧ c ≤ (if r = er then ec else 10000)

def scanCand (db : DB) (shelf : Str) (sr : Char) (sc : Nat) (er : Char) (ec : Nat)
    (basket : Str) (r : Char) (c : Nat) : Prop :=
  sr.toNat ≤ r.toNat ∧ r.toNat ≤ er.toNat ∧ colOK sr sc er ec r c ∧
    fitCond db shelf basket r c

/-- Row-major, column-ascending order on scan positions. -/
def lexLE (p q : Char × Nat) : Prop :=
  p.1.toNat < q.1.toNat ∨ (p.1 = q.1 ∧ p.2 ≤ q.2)

/-- The region of positions the claimed scan policy covers, exactly as the
specification words it (no 10000 safe cap): the first row starts at
`start_col`, the last row stops at `end_col`, every row is clamped to the
row's populated maximum column. -/
def claimedCand (db : DB) (sh : Str) (sr : Char) (sc : Nat) (er : Char)
    (ec : Nat) (basket : Str) (r : Char) (c : Nat) : Prop :=
  sr.toNat ≤ r.toNat ∧ r.toNat ≤ er.toNat ∧
  (r = sr → sc ≤ c) ∧ (r = er → c ≤ ec) ∧
  (∃ m, maxColOpt db sh r = some m ∧ c ≤ m) ∧
  fitCond db sh basket r c

/-- Slot lies inside the rectangular scan window of a section (position only,
occupancy and basket aside). -/
def inRegion (sh : Str) (sr : Char) (sc : Nat) (er : Char) (ec : Nat)
    (t : Slot) : Prop :=
  t.shelf = sh ∧ sr.toNat ≤ t.row.toNat ∧ t.row.toNat ≤ er.toNat ∧
    colOK sr sc er ec t.row t.col

instance (sr : Char) (sc : Nat) (er : Char) (ec : Nat) (r : Char) (c : Nat) :
    Decidable (colOK sr sc er ec r c) := by
  unfold colOK
  infer_instance

instance (sh : Str) (sr : Char) (sc : Nat) (er : Char) (ec : Nat) (t : Slot) :
    Decidable (inRegion sh sr sc er ec t) := by
  unfold inRegion
  infer_instance

/-- Full functional specification of `find_slot_in_section` on a fixed
snapshot: determinism, exhaustiveness of a failed scan, and soundness plus
row-major/column-ascending minimality of a successful scan. -/
def findSectionSpec (db : DB) (sh : Str) (sr : Char) (sc : Nat) (er : Char)
    (ec : Nat) (basket : Str) : Prop :=
  (∀ x y, find_slot_in_section db sh sr sc er ec basket = x →
    find_slot_in_section db sh sr sc er ec basket = y → x = y) ∧
  (find_slot_in_section db sh sr sc er ec basket = none ↔
    ∀ r c, ¬ scanCand db sh sr sc er ec basket r c) ∧
  (∀ sids sh', find_slot_in_section db sh sr sc er ec basket = some (sids, sh') →
    sh' = sh ∧ ∃ r c, scanCand db sh sr sc er ec basket r c ∧
      (∀ r' c', scanCand db sh sr sc er ec basket r' c' → lexLE (r, c) (r', c')) ∧
      fitAt db sh basket r c = some sids)

/-- Behavioural specification of the Overflow fallback: a primary result is
returned as is; with no primary result the search is retried against the
Overflow section verbatim (none when Overflow is unconfigured), and any slot
returned in the fallback case is not a candidate of the primary section. -/
def overflowSpec (db : DB) (letter basket : Str) : Prop :=
  (∀ res, find_next_available_slot_primary db letter basket = some res →
    find_next_available_slot_with_overflow db letter basket = some res) ∧
  (find_next_available_slot_primary db letter basket = none →
    (get_overflow_section db = none →
      find_next_available_slot_with_overflow db letter basket = none) ∧
    (∀ sh sr sc er ec, get_overflow_section db = some (sh, sr, sc, er, ec) →
      find_next_available_slot_with_overflow db letter basket =
        find_slot_in_section db sh sr sc er ec basket) ∧
    (∀ sids sh', find_next_available_slot_with_overflow db letter basket =
        some (sids, sh') →
      ∀ psh psr psc per pec,
        get_letter_section db letter = some (psh, psr, psc, per, pec) →
        ∀ i1 rest, sids = i1 :: rest → ∀ s ∈ db.slots, s.id = i1 →
          ¬ scanCand db psh psr psc per pec basket s.row s.col))

/-- Pointwise effect of `repair_slot_occupancy` on one slot record: occupied
exactly when the id is in the seen set. -/
def repairFlag (db : DB) (s : Slot) : Slot :=
  if s.id ∈ seenList db then setOcc true s else setOcc false s

/-- The set of slot ids the reconciliation invariant says must be occupied:
slot references held by live prescriptions, expanded with each large-basket
prescription's same-shelf same-row column+1 neighbour when that slot exists. -/
def reconcileTarget (db : DB) (i : Nat) : Prop :=
  ∃ p ∈ db.prescriptions, ∃ sid, p.slotId = some sid ∧
    (i = sid ∨ (isLarge p.basket = true ∧ ∃ s0 ∈ db.slots, s0.id = sid ∧
      ∃ s1 ∈ db.slots, s1.shelf = s0.shelf ∧ s1.row = s0.row ∧
        s1.col = s0.col + 1 ∧ i = s1.id))

/-- Specification of `repair_slot_occupancy`: afterwards exactly the target
set is occupied, and running it twice equals running it once. -/
def reconcileSpec (db : DB) : Prop :=
  (∀ s ∈ (repair_slot_occupancy db).slots,
    s.occupied = true ↔ reconcileTarget db s.id) ∧
  repair_slot_occupancy (repair_slot_occupancy db) = repair_slot_occupancy db

/-- Behavioural specification of `is_slot_in_letter_section`: unconditionally
true for Overflow, an unconfigured section or an unresolvable slot id;
otherwise shelf equality plus row range plus boundary-row column bounds. -/
def membershipSpec (db : DB) (letter : Str) (sid : Nat) : Prop :=
  (letter = overflowStr → is_slot_in_letter_section db letter sid = true) ∧
  (get_letter_section db letter = none →
    is_slot_in_letter_section db letter sid = true) ∧
  (slot_id_to_tuple db sid = none →
    is_slot_in_letter_section db letter sid = true) ∧
  (∀ sh sr sc er ec sname row col,
    letter ≠ overflowStr →
    get_letter_section db letter = some (sh, sr, sc, er, ec) →
    slot_id_to_tuple db sid = some (sname, row, col) →
    (is_slot_in_letter_section db letter sid = true ↔
      (sname = sh ∧ sr ≤ row ∧ row ≤ er ∧ (row = sr → sc ≤ col) ∧
        (row = er → col ≤ ec))))

/-! ### Concrete states for witnesses, counterexamples and failing inputs -/

def shelfF : Str := "F".toList

/-- Witness state for reconciliation: one large-basket prescription in slot 1,
its column neighbour 2, and an unrelated stale-occupied slot 3. -/
def c1db : DB :=
  ⟨[⟨1, shelfF, 'A', 1, false⟩, ⟨2, shelfF, 'A', 2, true⟩, ⟨3, shelfF, 'B', 1, true⟩],
   [⟨1, 1, some largeStr, some 1⟩], [], [], []⟩

/-- Failing input for the shared family bin: two live prescriptions reference
slot 1. -/
def c2db : DB :=
  ⟨[⟨1, shelfF, 'A', 1, true⟩],
   [⟨1, 1, some smallStr, some 1⟩, ⟨2, 1, some smallStr, some 1⟩], [], [], []⟩

/-- Counterexample state for the scan claim: the only free fit sits at column
10001 of a non-final row, beyond the hard-coded 10000 safe cap. -/
def c3db : DB := ⟨[⟨1, shelfF, 'A', 10001, false⟩], [], [], [], []⟩

def w3db : DB := ⟨[⟨1, shelfF, 'A', 1, false⟩], [], [], [], []⟩

def w4db : DB :=
  ⟨[⟨1, shelfF, 'A', 1, false⟩, ⟨2, shelfF, 'A', 2, false⟩], [], [], [], []⟩

def w5db : DB :=
  ⟨[⟨1, shelfF, 'A', 1, false⟩], [], [],
   [⟨"A".toList, shelfF, "A1".toList, "A1".toList⟩], []⟩

/-- Failing input for shelf resize: shelf F is 1x1 and populated; the edit
requests 1x2. -/
def c6db : DB := ⟨[⟨1, shelfF, 'A', 1, false⟩], [], [⟨shelfF, 1, 1⟩], [], []⟩

def w7db : DB :=
  ⟨[⟨1, shelfF, 'B', 5, false⟩], [], [],
   [⟨"A".toList, shelfF, "B5".toList, "D15".toList⟩], []⟩

/-- Failing input for the patient letter: a whitespace-only patient name. -/
def c8db : DB := ⟨[], [], [], [], [⟨1, [' ']⟩]⟩

/-- Counterexample state for the label codec: a shelf name containing a
hyphen. -/
def c9db : DB := ⟨[⟨1, "A-B".toList, 'C', 1, false⟩], [], [], [], []⟩

def w9db : DB := ⟨[⟨1, shelfF, 'B', 12, false⟩], [], [], [], []⟩

def w10db : DB :=
  ⟨[⟨1, shelfF, 'A', 1, false⟩, ⟨2, shelfF, 'A', 2, false⟩], [], [], [], []⟩

/-- The ten decimal digit characters. -/
def digits09 : Str := "0123456789".toList

/-! ### Basic helper lemmas -/

theorem mem_natRangeAux {n a c : Nat} : c ∈ natRangeAux a n ↔ a ≤ c ∧ c < a + n := by
  induction n generalizing a with
  | zero => simp [natRangeAux]
  | succ m ih =>
    simp only [natRangeAux, List.mem_cons, ih]
    omega

theorem char_toNat_inj {a b : Char} (h : a.toNat = b.toNat) : a = b := by
  apply Char.eq_of_val_eq
  apply UInt32.ext
  simpa [Char.toNat, UInt32.toNat] using h

theorem char_toNat_ofNat {n : Nat} (h : n < 55296) : (Char.ofNat n).toNat = n := by
  unfold Char.ofNat
  rw [dif_pos (Or.inl h)]
  rfl

theorem char_le_iff_toNat {a b : Char} : a ≤ b ↔ a.toNat ≤ b.toNat := by
  rw [Char.le_def]
  exact Iff.rfl

theorem char_lt_iff_toNat {a b : Char} : a < b ↔ a.toNat < b.toNat := by
  rw [Char.lt_def]
  exact Iff.rfl

/-- `find?` returns the unique element satisfying a predicate when one exists. -/
theorem find?_eq_some_of_unique {α : Type} {p : α → Bool} {l : List α} {s : α}
    (hs : s ∈ l) (hps : p s = true) (huniq : ∀ t ∈ l, p t = true → t = s) :
    l.find? p = some s := by
  induction l with
  | nil => cases hs
  | cons a l ih =>
    by_cases hpa : p a = true
    · have heq : a = s := huniq a (List.mem_cons_self a l) hpa
      subst heq
      simp [List.find?, hpa]
    · have hsl : s ∈ l := by
        rcases List.mem_cons.mp hs with h | h
        · exact absurd (h ▸ hps) hpa
        · exact h
      have : l.find? p = some s :=
        ih hsl fun t ht hpt => huniq t (List.mem_cons_of_mem a ht) hpt
      simp [List.find?, hpa, this]

/-- Membership form of a successful `find?`. -/
theorem find?_some_mem {α : Type} {p : α → Bool} {l : List α} {s : α}
    (h : l.find? p = some s) : s ∈ l ∧ p s = true :=
  ⟨List.mem_of_find?_eq_some h, List.find?_some h⟩

theorem slotAtPos_iff {shelf : Str} {r : Char} {c : Nat} {s : Slot} :
    slotAtPos shelf r c s = true ↔ s.shelf = shelf ∧ s.row = r ∧ s.col = c := by
  simp [slotAtPos, and_assoc]

theorem slotById_iff {i : Nat} {s : Slot} : slotById i s = true ↔ s.id = i := by
  simp [slotById]

/-- Under uniqueness of addresses, the position lookup finds exactly the slot
at that position. -/
theorem find?_pos_eq_some_iff {db : DB} (hWF : WFdb db) {shelf : Str} {r : Char}
    {c : Nat} {s : Slot} :
    db.slots.find? (slotAtPos shelf r c) = some s ↔
      s ∈ db.slots ∧ s.shelf = shelf ∧ s.row = r ∧ s.col = c := by
  constructor
  · intro h
    obtain ⟨hm, hp⟩ := find?_some_mem h
    exact ⟨hm, slotAtPos_iff.mp hp⟩
  · rintro ⟨hm, h1, h2, h3⟩
    apply find?_eq_some_of_unique hm (slotAtPos_iff.mpr ⟨h1, h2, h3⟩)
    intro t ht hpt
    obtain ⟨g1, g2, g3⟩ := slotAtPos_iff.mp hpt
    exact hWF.2.1 t ht s hm (by rw [g1, h1]) (by rw [g2, h2]) (by rw [g3, h3])

/-- Under uniqueness of ids, the id lookup finds exactly the slot with that id. -/
theorem find?_id_eq_some_iff {db : DB} (hWF : WFdb db) {i : Nat} {s : Slot} :
    db.slots.find? (slotById i) = some s ↔ s ∈ db.slots ∧ s.id = i := by
  constructor
  · intro h
    obtain ⟨hm, hp⟩ := find?_some_mem h
    exact ⟨hm, slotById_iff.mp hp⟩
  · rintro ⟨hm, h1⟩
    apply find?_eq_some_of_unique hm (slotById_iff.mpr h1)
    intro t ht hpt
    exact hWF.1 t ht s hm (by rw [slotById_iff.mp hpt, h1])

theorem find?_pos_eq_none_iff {db : DB} {shelf : Str} {r : Char} {c : Nat} :
    db.slots.find? (slotAtPos shelf r c) = none ↔
      ∀ s ∈ db.slots, ¬(s.shelf = shelf ∧ s.row = r ∧ s.col = c) := by
  rw [List.find?_eq_none]
  constructor
  · intro h s hs hc
    exact h s hs (slotAtPos_iff.mpr hc)
  · intro h s hs hc
    exact h s hs (slotAtPos_iff.mp hc)

/-- Soundness of one scan step: a successful fit names slots actually free at
the scanned position. -/
theorem fitAt_eq_some {db : DB} {shelf basket : Str} {r : Char} {c : Nat}
    {sids : List Nat} (h : fitAt db shelf basket r c = some sids) :
    ∃ s1 ∈ db.slots, s1.shelf = shelf ∧ s1.row = r ∧ s1.col = c ∧
      s1.occupied = false ∧
      ((¬ basket = largeStr ∧ sids = [s1.id]) ∨
        (basket = largeStr ∧ ∃ s2 ∈ db.slots, s2.shelf = shelf ∧ s2.row = r ∧
          s2.col = c + 1 ∧ s2.occupied = false ∧ sids = [s1.id, s2.id])) := by
  unfold fitAt at h
  rcases hfind : db.slots.find? (slotAtPos shelf r c) with _ | s1
  · simp only [hfind] at h
    exact Option.noConfusion h
  · simp only [hfind] at h
    obtain ⟨hm1, hp1⟩ := find?_some_mem hfind
    obtain ⟨g1, g2, g3⟩ := slotAtPos_iff.mp hp1
    by_cases hocc : s1.occupied
    · rw [if_pos hocc] at h
      cases h
    · rw [if_neg hocc] at h
      rw [Bool.not_eq_true] at hocc
      by_cases hL : basket == largeStr
      · rw [if_pos hL] at h
        rcases hfind2 : db.slots.find? (slotAtPos shelf r (c + 1)) with _ | s2
        · simp only [hfind2] at h
          exact Option.noConfusion h
        · simp only [hfind2] at h
          obtain ⟨hm2, hp2⟩ := find?_some_mem hfind2
          obtain ⟨k1, k2, k3⟩ := slotAtPos_iff.mp hp2
          by_cases hocc2 : s2.occupied
          · rw [if_pos hocc2] at h
            cases h
          · rw [if_neg hocc2] at h
            rw [Bool.not_eq_true] at hocc2
            cases h
            exact ⟨s1, hm1, g1, g2, g3, hocc,
              Or.inr ⟨by simpa using hL, s2, hm2, k1, k2, k3, hocc2, rfl⟩⟩
      · rw [if_neg hL] at h
        cases h
        refine ⟨s1, hm1, g1, g2, g3, hocc, Or.inl ⟨?_, rfl⟩⟩
        intro hb
        exact absurd (by simp [hb] : basket == largeStr) (by simpa using hL)

/-- A successful fit implies the candidate condition. -/
theorem fitCond_of_fitAt_eq_some {db : DB} {shelf basket : Str} {r : Char}
    {c : Nat} {sids : List Nat} (h : fitAt db shelf basket r c = some sids) :
    fitCond db shelf basket r c := by
  obtain ⟨s1, hm1, g1, g2, g3, hocc, hcase⟩ := fitAt_eq_some h
  refine ⟨s1, hm1, g1, g2, g3, hocc, fun hb => ?_⟩
  rcases hcase with ⟨hnb, _⟩ | ⟨_, s2, hm2, k1, k2, k3, hocc2, _⟩
  · exact absurd hb hnb
  · exact ⟨s2, hm2, k1, k2, k3, hocc2⟩

/-- Completeness of one scan step: where the candidate condition holds, the
scan step succeeds. -/
theorem fitAt_some_iff_fitCond {db : DB} (hWF : WFdb db) {shelf basket : Str}
    {r : Char} {c : Nat} :
    (∃ sids, fitAt db shelf basket r c = some sids) ↔ fitCond db shelf basket r c := by
  constructor
  · rintro ⟨sids, h⟩
    exact fitCond_of_fitAt_eq_some h
  · rintro ⟨s, hs, h1, h2, h3, h4, h5⟩
    have hfind : db.slots.find? (slotAtPos shelf r c) = some s :=
      (find?_pos_eq_some_iff hWF).mpr ⟨hs, h1, h2, h3⟩
    unfold fitAt
    rw [hfind]
    by_cases hL : basket == largeStr
    · obtain ⟨s2, hs2, k1, k2, k3, k4⟩ := h5 (by simpa using hL)
      have hfind2 : db.slots.find? (slotAtPos shelf r (c + 1)) = some s2 :=
        (find?_pos_eq_some_iff hWF).mpr ⟨hs2, k1, k2, k3⟩
      rw [hfind2]
      exact ⟨[s.id, s2.id], by simp [h4, hL, k4]⟩
    · exact ⟨[s.id], by simp [h4, hL]⟩

theorem fitAt_eq_none_iff {db : DB} (hWF : WFdb db) {shelf basket : Str}
    {r : Char} {c : Nat} :
    fitAt db shelf basket r c = none ↔ ¬ fitCond db shelf basket r c := by
  rw [← fitAt_some_iff_fitCond hWF]
  rcases h : fitAt db shelf basket r c with _ | v
  · simp [h]
  · simp [h]

/-! ### The column loop -/

theorem scanRow_eq_none_iff {db : DB} {shelf basket : Str} {r : Char} :
    ∀ {n a : Nat}, scanRow db shelf basket r (natRangeAux a n) = none ↔
      ∀ c, a ≤ c → c < a + n → fitAt db shelf basket r c = none := by
  intro n
  induction n with
  | zero => intro a; simp [natRangeAux, scanRow]; omega
  | succ m ih =>
    intro a
    simp only [natRangeAux, scanRow]
    rcases hfa : fitAt db shelf basket r a with _ | v
    · rw [ih]
      constructor
      · intro h c hc1 hc2
        rcases Nat.eq_or_lt_of_le hc1 with h' | h'
        · rw [← h']; exact hfa
        · exact h c h' (by omega)
      · intro h c hc1 hc2
        exact h c (by omega) (by omega)
    · constructor
      · intro h
        exact Option.noConfusion h
      · intro h
        have := h a (le_refl a) (by omega)
        rw [this] at hfa
        exact Option.noConfusion hfa

theorem scanRow_eq_some {db : DB} {shelf basket : Str} {r : Char} :
    ∀ {n a : Nat} {sids : List Nat},
      scanRow db shelf basket r (natRangeAux a n) = some sids →
      ∃ c, a ≤ c ∧ c < a + n ∧ fitAt db shelf basket r c = some sids ∧
        ∀ c', a ≤ c' → c' < c → fitAt db shelf basket r c' = none := by
  intro n
  induction n with
  | zero => intro a sids h; simp [natRangeAux, scanRow] at h
  | succ m ih =>
    intro a sids h
    simp only [natRangeAux, scanRow] at h
    rcases hfa : fitAt db shelf basket r a with _ | v
    · rw [hfa] at h
      obtain ⟨c, hc1, hc2, hc3, hc4⟩ := ih h
      refine ⟨c, by omega, by omega, hc3, fun c' h1 h2 => ?_⟩
      rcases Nat.eq_or_lt_of_le h1 with h' | h'
      · rw [← h']; exact hfa
      · exact hc4 c' h' h2
    · rw [hfa] at h
      cases h
      exact ⟨a, le_refl a, by omega, hfa, fun c' h1 h2 => by omega⟩

/-! ### The row loop body -/

theorem foldl_max_init_le : ∀ (l : List Nat) (init : Nat), init ≤ l.foldl max init
  | [], i => le_refl i
  | b :: t, i => le_trans (le_max_left i b) (foldl_max_init_le t (max i b))

theorem le_foldl_max {a : Nat} : ∀ {l : List Nat} (init : Nat), a ∈ l →
    a ≤ l.foldl max init := by
  intro l
  induction l with
  | nil => intro init h; cases h
  | cons b t ih =>
    intro init h
    rcases List.mem_cons.mp h with rfl | h'
    · exact le_trans (le_max_right init a) (foldl_max_init_le t (max init a))
    · exact ih (max init b) h'

theorem maxColOpt_eq_none_iff {db : DB} {shelf : Str} {r : Char} :
    maxColOpt db shelf r = none ↔
      ∀ s ∈ db.slots, ¬(s.shelf = shelf ∧ s.row = r) := by
  unfold maxColOpt
  split
  next hemp =>
    rw [List.isEmpty_iff, List.map_eq_nil_iff, List.filter_eq_nil_iff] at hemp
    refine iff_of_true rfl ?_
    intro s hs hc
    exact absurd (by simp [hc.1, hc.2] : (s.shelf == shelf && s.row == r) = true)
      (hemp s hs)
  next hemp =>
    refine iff_of_false (by simp) ?_
    intro hall
    rcases hx : (db.slots.filter fun s => s.shelf == shelf && s.row == r) with _ | ⟨x, xs⟩
    · rw [hx] at hemp
      simp at hemp
    · have hxm : x ∈ db.slots.filter fun s => s.shelf == shelf && s.row == r := by
        rw [hx]; exact List.mem_cons_self x xs
      obtain ⟨hxs, hxp⟩ := List.mem_filter.mp hxm
      have : x.shelf = shelf ∧ x.row = r := by
        have := hxp
        simp at this
        exact this
      exact hall x hxs this

theorem maxColOpt_le {db : DB} {shelf : Str} {r : Char} {m : Nat}
    (h : maxColOpt db shelf r = some m) :
    ∀ s ∈ db.slots, s.shelf = shelf → s.row = r → s.col ≤ m := by
  intro s hs h1 h2
  unfold maxColOpt at h
  split at h
  next => exact Option.noConfusion h
  next =>
    cases h
    apply le_foldl_max
    exact List.mem_map_of_mem Slot.col (List.mem_filter.mpr ⟨hs, by simp [h1, h2]⟩)

theorem ite_beq_char {r sr : Char} {x y : Nat} :
    (if r == sr then x else y) = if r = sr then x else y := by
  simp only [beq_iff_eq]

theorem rowOutcome_eq_none_iff {db : DB} {shelf basket : Str} {sr er : Char}
    {sc ec : Nat} {r : Char} (hWF : WFdb db) (hsc : 1 ≤ sc) :
    rowOutcome db shelf basket sr sc er ec r = none ↔
      ∀ c, ¬(colOK sr sc er ec r c ∧ fitCond db shelf basket r c) := by
  unfold rowOutcome
  rcases hmax : maxColOpt db shelf r with _ | m
  · refine iff_of_true rfl ?_
    rintro c ⟨_, s, hs, h1, h2, _⟩
    exact maxColOpt_eq_none_iff.mp hmax s hs ⟨h1, h2⟩
  · dsimp only
    by_cases hm : m = 0
    · subst hm
      refine iff_of_true (by simp) ?_
      rintro c ⟨⟨hlo, _⟩, s, hs, h1, h2, h3, _⟩
      have hc0 : c ≤ 0 := h3 ▸ maxColOpt_le hmax s hs h1 h2
      by_cases hr : r = sr
      · rw [if_pos hr] at hlo; omega
      · rw [if_neg hr] at hlo; omega
    · rw [if_neg (show ¬((m == 0) = true) by simpa using hm)]
      unfold colsRange
      rw [scanRow_eq_none_iff]
      constructor
      · rintro h c ⟨⟨hlo, hhi⟩, hfit⟩
        have hfit' := hfit
        obtain ⟨s, hs, h1, h2, h3, -, -⟩ := hfit'
        have hcm : c ≤ m := h3 ▸ maxColOpt_le hmax s hs h1 h2
        rw [← ite_beq_char] at hlo
        rw [← ite_beq_char] at hhi
        have hmin : c ≤ min (if r == er then ec else 10000) m := le_min hhi hcm
        have hnone := h c hlo (by omega)
        rw [fitAt_eq_none_iff hWF] at hnone
        exact hnone hfit
      · intro h c hc1 hc2
        rw [fitAt_eq_none_iff hWF]
        intro hfit
        refine h c ⟨⟨?_, ?_⟩, hfit⟩
        · rw [← ite_beq_char]; exact hc1
        · rw [← ite_beq_char]
          have := min_le_left (if r == er then ec else 10000) m
          omega

theorem rowOutcome_eq_some {db : DB} {shelf basket : Str} {sr er : Char}
    {sc ec : Nat} {r : Char} {sids : List Nat} (hWF : WFdb db)
    (h : rowOutcome db shelf basket sr sc er ec r = some sids) :
    ∃ c, colOK sr sc er ec r c ∧ fitCond db shelf basket r c ∧
      fitAt db shelf basket r c = some sids ∧
      ∀ c', c' < c → ¬(colOK sr sc er ec r c' ∧ fitCond db shelf basket r c') := by
  unfold rowOutcome at h
  rcases hmax : maxColOpt db shelf r with _ | m
  · simp only [hmax] at h
    exact Option.noConfusion h
  · simp only [hmax] at h
    by_cases hm : m = 0
    · rw [if_pos (by simpa using hm)] at h
      exact Option.noConfusion h
    · rw [if_neg (show ¬((m == 0) = true) by simpa using hm)] at h
      unfold colsRange at h
      obtain ⟨c, hc1, hc2, hc3, hc4⟩ := scanRow_eq_some h
      have hchi : c ≤ min (if r == er then ec else 10000) m := by omega
      refine ⟨c, ⟨?_, ?_⟩, fitCond_of_fitAt_eq_some hc3, hc3, ?_⟩
      · rw [← ite_beq_char]; exact hc1
      · rw [← ite_beq_char]
        have := min_le_left (if r == er then ec else 10000) m
        omega
      · rintro c' hlt ⟨⟨hlo, _⟩, hfit⟩
        rw [← ite_beq_char] at hlo
        have := hc4 c' hlo hlt
        rw [fitAt_eq_none_iff hWF] at this
        exact this hfit

/-- Weak soundness of the row loop body, without well-formedness: a successful
row yields a successful scan step at some column. -/
theorem rowOutcome_some_fitAt {db : DB} {shelf basket : Str} {sr er : Char}
    {sc ec : Nat} {r : Char} {sids : List Nat}
    (h : rowOutcome db shelf basket sr sc er ec r = some sids) :
    ∃ c, fitAt db shelf basket r c = some sids := by
  unfold rowOutcome at h
  rcases hmax : maxColOpt db shelf r with _ | m
  · simp only [hmax] at h
    exact Option.noConfusion h
  · simp only [hmax] at h
    by_cases hm : m = 0
    · rw [if_pos (by simpa using hm)] at h
      exact Option.noConfusion h
    · rw [if_neg (show ¬((m == 0) = true) by simpa using hm)] at h
      unfold colsRange at h
      obtain ⟨c, _, _, hc3, _⟩ := scanRow_eq_some h
      exact ⟨c, hc3⟩

/-! ### The row loop -/

theorem findRows_eq_some_exists {db : DB} {shelf basket : Str} {sr er : Char}
    {sc ec : Nat} {sids : List Nat} {sh' : Str} :
    ∀ {rows : List Char},
      findRows db shelf basket sr sc er ec rows = some (sids, sh') →
      sh' = shelf ∧ ∃ r ∈ rows, rowOutcome db shelf basket sr sc er ec r = some sids := by
  intro rows
  induction rows with
  | nil => intro h; exact Option.noConfusion h
  | cons r rs ih =>
    intro h
    unfold findRows at h
    rcases hro : rowOutcome db shelf basket sr sc er ec r with _ | v
    · rw [hro] at h
      obtain ⟨h1, r', hr', h2⟩ := ih h
      exact ⟨h1, r', List.mem_cons_of_mem r hr', h2⟩
    · rw [hro] at h
      cases h
      exact ⟨rfl, r, List.mem_cons_self r rs, hro⟩

theorem findRows_map_eq_none_iff {db : DB} {shelf basket : Str} {sr er : Char}
    {sc ec : Nat} :
    ∀ {n a : Nat}, a + n ≤ 91 →
      (findRows db shelf basket sr sc er ec ((natRangeAux a n).map Char.ofNat) = none ↔
        ∀ r : Char, a ≤ r.toNat → r.toNat < a + n →
          rowOutcome db shelf basket sr sc er ec r = none) := by
  intro n
  induction n with
  | zero =>
    intro a _
    refine iff_of_true rfl ?_
    intro r h1 h2
    omega
  | succ m ih =>
    intro a h91
    have ha : (Char.ofNat a).toNat = a := char_toNat_ofNat (by omega)
    simp only [natRangeAux, List.map_cons]
    unfold findRows
    rcases hro : rowOutcome db shelf basket sr sc er ec (Char.ofNat a) with _ | v
    · rw [ih (by omega)]
      constructor
      · intro h r h1 h2
        rcases Nat.eq_or_lt_of_le h1 with h' | h'
        · have : r = Char.ofNat a := by
            rw [← Char.ofNat_toNat r, ← h']
          rw [this]
          exact hro
        · exact h r h' (by omega)
      · intro h r h1 h2
        exact h r (by omega) (by omega)
    · refine iff_of_false (by simp) ?_
      intro hall
      have := hall (Char.ofNat a) (by omega) (by omega)
      rw [this] at hro
      exact Option.noConfusion hro

theorem findRows_map_eq_some {db : DB} {shelf basket : Str} {sr er : Char}
    {sc ec : Nat} {sids : List Nat} {sh' : Str} :
    ∀ {n a : Nat}, a + n ≤ 91 →
      findRows db shelf basket sr sc er ec ((natRangeAux a n).map Char.ofNat) =
        some (sids, sh') →
      sh' = shelf ∧ ∃ r : Char, a ≤ r.toNat ∧ r.toNat < a + n ∧
        rowOutcome db shelf basket sr sc er ec r = some sids ∧
        ∀ r' : Char, a ≤ r'.toNat → r'.toNat < r.toNat →
          rowOutcome db shelf basket sr sc er ec r' = none := by
  intro n
  induction n with
  | zero =>
    intro a _ h
    exact Option.noConfusion h
  | succ m ih =>
    intro a h91 h
    have ha : (Char.ofNat a).toNat = a := char_toNat_ofNat (by omega)
    simp only [natRangeAux, List.map_cons] at h
    unfold findRows at h
    rcases hro : rowOutcome db shelf basket sr sc er ec (Char.ofNat a) with _ | v
    · rw [hro] at h
      obtain ⟨h1, r, hr1, hr2, hr3, hr4⟩ := ih (by omega) h
      refine ⟨h1, r, by omega, by omega, hr3, ?_⟩
      intro r' h1' h2'
      rcases Nat.eq_or_lt_of_le h1' with h' | h'
      · have : r' = Char.ofNat a := by
          rw [← Char.ofNat_toNat r', ← h']
        rw [this]
        exact hro
      · exact hr4 r' h' h2'
    · rw [hro] at h
      cases h
      refine ⟨rfl, Char.ofNat a, by omega, by omega, hro, ?_⟩
      intro r' h1' h2'
      omega

/-! ### Master characterization of `find_slot_in_section`

The hypotheses `65 ≤ sr.toNat`, `sr.toNat ≤ 90`, `er.toNat ≤ 90`, `1 ≤ sc`
hold for every section produced by `parse_bound` (rows between 'A' and 'Z',
columns at least 1); see `get_letter_section_bounds`. -/

theorem find_eq_none_iff {db : DB} {sh basket : Str} {sr er : Char} {sc ec : Nat}
    (hWF : WFdb db) (h65 : 65 ≤ sr.toNat) (h90s : sr.toNat ≤ 90)
    (h90e : er.toNat ≤ 90) (hsc : 1 ≤ sc) :
    find_slot_in_section db sh sr sc er ec basket = none ↔
      ∀ r c, ¬ scanCand db sh sr sc er ec basket r c := by
  unfold find_slot_in_section rows_range
  rw [findRows_map_eq_none_iff (by omega)]
  constructor
  · rintro h r c ⟨hb1, hb2, hcol, hfit⟩
    have := h r hb1 (by omega)
    rw [rowOutcome_eq_none_iff hWF hsc] at this
    exact this c ⟨hcol, hfit⟩
  · intro h r hb1 hb2
    rw [rowOutcome_eq_none_iff hWF hsc]
    rintro c ⟨hcol, hfit⟩
    exact h r c ⟨hb1, by omega, hcol, hfit⟩

theorem find_eq_some_spec {db : DB} {sh basket : Str} {sr er : Char}
    {sc ec : Nat} {sids : List Nat} {sh' : Str}
    (hWF : WFdb db) (h65 : 65 ≤ sr.toNat) (h90s : sr.toNat ≤ 90)
    (h90e : er.toNat ≤ 90) (hsc : 1 ≤ sc)
    (h : find_slot_in_section db sh sr sc er ec basket = some (sids, sh')) :
    sh' = sh ∧ ∃ r c, scanCand db sh sr sc er ec basket r c ∧
      (∀ r' c', scanCand db sh sr sc er ec basket r' c' → lexLE (r, c) (r', c')) ∧
      fitAt db sh basket r c = some sids := by
  unfold find_slot_in_section rows_range at h
  obtain ⟨hsh, r, hr1, hr2, hro, hmin⟩ := findRows_map_eq_some (by omega) h
  obtain ⟨c, hcol, hfit, hfa, hcmin⟩ := rowOutcome_eq_some hWF hro
  refine ⟨hsh, r, c, ⟨hr1, by omega, hcol, hfit⟩, ?_, hfa⟩
  rintro r' c' ⟨g1, g2, gcol, gfit⟩
  rcases Nat.lt_trichotomy r'.toNat r.toNat with hlt | heq | hgt
  · exfalso
    have := hmin r' g1 hlt
    rw [rowOutcome_eq_none_iff hWF hsc] at this
    exact this c' ⟨gcol, gfit⟩
  · have hrr : r' = r := char_toNat_inj heq
    subst hrr
    right
    refine ⟨rfl, ?_⟩
    by_contra hcc
    push_neg at hcc
    exact hcmin c' hcc ⟨gcol, gfit⟩
  · left
    exact hgt

/-! ### Bounds coming out of `parse_bound` -/

theorem parse_bound_spec {t : Str} {rowc : Char} {col : Nat}
    (h : parse_bound t = some (rowc, col)) :
    65 ≤ rowc.toNat ∧ rowc.toNat ≤ 90 ∧ 1 ≤ col := by
  unfold parse_bound at h
  by_cases he : t.isEmpty
  · rw [if_pos he] at h
    exact Option.noConfusion h
  · rw [if_neg he] at h
    rcases hs : upperStr (trim t) with _ | ⟨c0, rest⟩
    · simp only [hs] at h
      exact Option.noConfusion h
    · simp only [hs] at h
      by_cases hlen : (c0 :: rest).length < 2
      · rw [if_pos hlen] at h
        exact Option.noConfusion h
      · rw [if_neg hlen] at h
        by_cases halpha : (!c0.isAlpha) = true
        · rw [if_pos halpha] at h
          exact Option.noConfusion h
        · rw [if_neg halpha] at h
          rcases hint : parseInt? rest with _ | coli
          · simp only [hint] at h
            exact Option.noConfusion h
          · simp only [hint] at h
            by_cases hAZ : ¬('A' ≤ c0 ∧ c0 ≤ 'Z')
            · rw [if_pos hAZ] at h
              exact Option.noConfusion h
            · rw [if_neg hAZ] at h
              rw [not_not] at hAZ
              by_cases hc0 : coli ≤ 0
              · rw [if_pos hc0] at h
                exact Option.noConfusion h
              · rw [if_neg hc0] at h
                cases h
                have hA : ('A' : Char).toNat = 65 := rfl
                have hZ : ('Z' : Char).toNat = 90 := rfl
                have g1 := char_le_iff_toNat.mp hAZ.1
                have g2 := char_le_iff_toNat.mp hAZ.2
                refine ⟨by omega, by omega, by omega⟩

theorem get_letter_section_bounds {db : DB} {L sh : Str} {sr er : Char}
    {sc ec : Nat} (h : get_letter_section db L = some (sh, sr, sc, er, ec)) :
    65 ≤ sr.toNat ∧ sr.toNat ≤ 90 ∧ 1 ≤ sc ∧
      65 ≤ er.toNat ∧ er.toNat ≤ 90 ∧ 1 ≤ ec := by
  unfold get_letter_section at h
  rcases hf : db.sections.find? (fun t => t.letter == L) with _ | t
  · simp only [hf] at h
    exact Option.noConfusion h
  · simp only [hf] at h
    by_cases hb : (t.shelf.isEmpty || t.lower.isEmpty || t.upper.isEmpty) = true
    · rw [if_pos hb] at h
      exact Option.noConfusion h
    · rw [if_neg hb] at h
      rcases h1 : parse_bound t.lower with _ | lo
      · simp only [h1] at h
        exact Option.noConfusion h
      · rcases h2 : parse_bound t.upper with _ | up
        · simp only [h1, h2] at h
          exact Option.noConfusion h
        · simp only [h1, h2] at h
          cases h
          obtain ⟨a1, a2, a3⟩ := @parse_bound_spec t.lower lo.1 lo.2 h1
          obtain ⟨b1, b2, b3⟩ := @parse_bound_spec t.upper up.1 up.2 h2
          exact ⟨a1, a2, a3, b1, b2, b3⟩


/-! ### Reconciliation lemmas -/

theorem foldl_markOne : ∀ (l : List Nat) (slots : List Slot),
    l.foldl markOne slots =
      slots.map (fun s => if s.id ∈ l then setOcc true s else s) := by
  intro l
  induction l with
  | nil =>
    intro slots
    simp
  | cons a l ih =>
    intro slots
    rw [List.foldl_cons, ih]
    unfold markOne
    rw [List.map_map]
    apply List.map_congr_left
    intro s _
    dsimp only [Function.comp]
    by_cases hsa : (s.id == a) = true
    · rw [if_pos hsa]
      have ha : s.id = a := by simpa using hsa
      have hmem : s.id ∈ a :: l := by rw [ha]; exact List.mem_cons_self a l
      rw [if_pos hmem]
      show (if (setOcc true s).id ∈ l then setOcc true (setOcc true s)
        else setOcc true s) = setOcc true s
      by_cases h2 : (setOcc true s).id ∈ l
      · rw [if_pos h2]
        rfl
      · rw [if_neg h2]
    · rw [if_neg hsa]
      have ha : ¬ s.id = a := by simpa using hsa
      show (if s.id ∈ l then setOcc true s else s) = _
      by_cases h2 : s.id ∈ l
      · rw [if_pos h2, if_pos (List.mem_cons_of_mem a h2)]
      · rw [if_neg h2, if_neg (by simp [List.mem_cons, ha, h2])]

theorem repair_slots_shape (db : DB) :
    (repair_slot_occupancy db).slots = db.slots.map (repairFlag db) := by
  show (seenList db).foldl markOne (clearAll db.slots) = _
  rw [foldl_markOne]
  unfold clearAll
  rw [List.map_map]
  apply List.map_congr_left
  intro s _
  dsimp only [Function.comp]
  unfold repairFlag
  by_cases h : s.id ∈ seenList db
  · rw [if_pos (show (setOcc false s).id ∈ seenList db from h), if_pos h]
    rfl
  · rw [if_neg (show ¬ (setOcc false s).id ∈ seenList db from h), if_neg h]

theorem mem_seenList {db : DB} {i : Nat} :
    i ∈ seenList db ↔ ∃ p ∈ db.prescriptions, ∃ sid, p.slotId = some sid ∧
      ¬ sid = 0 ∧ (i = sid ∨ (isLarge p.basket = true ∧
        next_col_partner_slot_id db sid = some i)) := by
  unfold seenList
  rw [List.mem_flatMap]
  constructor
  · rintro ⟨p, hp, hmem⟩
    rcases hsl : p.slotId with _ | sid
    · simp only [hsl] at hmem
      exact absurd hmem (List.not_mem_nil i)
    · simp only [hsl] at hmem
      by_cases h0 : (sid == 0) = true
      · rw [if_pos h0] at hmem
        exact absurd hmem (List.not_mem_nil i)
      · rw [if_neg h0] at hmem
        rw [List.mem_append] at hmem
        refine ⟨p, hp, sid, hsl, by simpa using h0, ?_⟩
        rcases hmem with hm | hm
        · by_cases hL : isLarge p.basket = true
          · rw [if_pos hL] at hm
            right
            refine ⟨hL, ?_⟩
            rcases hpart : next_col_partner_slot_id db sid with _ | q
            · rw [hpart] at hm
              exact absurd hm (List.not_mem_nil i)
            · rw [hpart] at hm
              have hq : i = q := by simpa using hm
              rw [hq]
          · rw [if_neg hL] at hm
            exact absurd hm (List.not_mem_nil i)
        · left
          simpa using hm
  · rintro ⟨p, hp, sid, hsl, h0, hcase⟩
    refine ⟨p, hp, ?_⟩
    simp only [hsl]
    rw [if_neg (show ¬ (sid == 0) = true by simpa using h0)]
    rw [List.mem_append]
    rcases hcase with rfl | ⟨hL, hpart⟩
    · right
      simp
    · left
      rw [if_pos hL, hpart]
      simp

theorem partner_some_iff {db : DB} (hWF : WFdb db) {sid i : Nat} :
    next_col_partner_slot_id db sid = some i ↔
      ∃ s0 ∈ db.slots, s0.id = sid ∧ ∃ s1 ∈ db.slots, s1.shelf = s0.shelf ∧
        s1.row = s0.row ∧ s1.col = s0.col + 1 ∧ i = s1.id := by
  unfold next_col_partner_slot_id slot_id_to_tuple
  constructor
  · intro h
    rcases hfind : db.slots.find? (slotById sid) with _ | s0
    · simp only [hfind, Option.map_none'] at h
      exact Option.noConfusion h
    · simp only [hfind, Option.map_some'] at h
      obtain ⟨hm0, hid0⟩ := (find?_id_eq_some_iff hWF).mp hfind
      rcases hfind2 : db.slots.find? (slotAtPos s0.shelf s0.row (s0.col + 1)) with _ | s1
      · rw [hfind2] at h
        simp at h
      · rw [hfind2] at h
        simp only [Option.map_some'] at h
        obtain ⟨hm1, k1, k2, k3⟩ := (find?_pos_eq_some_iff hWF).mp hfind2
        exact ⟨s0, hm0, hid0, s1, hm1, k1, k2, k3, (Option.some.inj h).symm⟩
  · rintro ⟨s0, hm0, hid0, s1, hm1, k1, k2, k3, hi⟩
    have hfind : db.slots.find? (slotById sid) = some s0 :=
      (find?_id_eq_some_iff hWF).mpr ⟨hm0, hid0⟩
    simp only [hfind, Option.map_some']
    have hfind2 : db.slots.find? (slotAtPos s0.shelf s0.row (s0.col + 1)) = some s1 :=
      (find?_pos_eq_some_iff hWF).mpr ⟨hm1, k1, k2, k3⟩
    rw [hfind2]
    simp [hi]

/-- Seen-set membership coincides with the reconciliation target set for any
positive id (the `if not sid: continue` guard only discards the id 0, which
no slot record carries). -/
theorem seen_iff_target {db : DB} (hWF : WFdb db) {i : Nat} (hi1 : 1 ≤ i) :
    i ∈ seenList db ↔ reconcileTarget db i := by
  rw [mem_seenList]
  constructor
  · rintro ⟨p, hp, sid, hsl, h0, hcase⟩
    refine ⟨p, hp, sid, hsl, ?_⟩
    rcases hcase with rfl | ⟨hL, hpart⟩
    · left
      rfl
    · right
      exact ⟨hL, (partner_some_iff hWF).mp hpart⟩
  · rintro ⟨p, hp, sid, hsl, hcase⟩
    refine ⟨p, hp, sid, hsl, ?_, ?_⟩
    · rcases hcase with rfl | ⟨-, s0, hm0, hid0, -⟩
      · omega
      · have := hWF.2.2 s0 hm0
        omega
    · rcases hcase with rfl | ⟨hL, hex⟩
      · left
        rfl
      · right
        exact ⟨hL, (partner_some_iff hWF).mpr hex⟩

theorem find?_slotById_map_stable {f : Slot → Slot} (hf : ∀ s, (f s).id = s.id) :
    ∀ (l : List Slot) (i : Nat),
      (l.map f).find? (slotById i) = (l.find? (slotById i)).map f := by
  intro l i
  induction l with
  | nil => rfl
  | cons a t ih =>
    rw [List.map_cons]
    by_cases h : slotById i a = true
    · have h2 : slotById i (f a) = true := by
        unfold slotById at h ⊢
        rw [hf a]
        exact h
      rw [List.find?_cons_of_pos _ h2, List.find?_cons_of_pos _ h]
      rfl
    · have h2 : ¬ slotById i (f a) = true := by
        unfold slotById at h ⊢
        rw [hf a]
        exact h
      rw [List.find?_cons_of_neg _ h2, List.find?_cons_of_neg _ h]
      exact ih

theorem find?_slotAtPos_map_stable {f : Slot → Slot}
    (hf : ∀ s, (f s).shelf = s.shelf ∧ (f s).row = s.row ∧ (f s).col = s.col) :
    ∀ (l : List Slot) (sh : Str) (r : Char) (c : Nat),
      (l.map f).find? (slotAtPos sh r c) = (l.find? (slotAtPos sh r c)).map f := by
  intro l sh r c
  induction l with
  | nil => rfl
  | cons a t ih =>
    rw [List.map_cons]
    by_cases h : slotAtPos sh r c a = true
    · have h2 : slotAtPos sh r c (f a) = true := by
        unfold slotAtPos at h ⊢
        rw [(hf a).1, (hf a).2.1, (hf a).2.2]
        exact h
      rw [List.find?_cons_of_pos _ h2, List.find?_cons_of_pos _ h]
      rfl
    · have h2 : ¬ slotAtPos sh r c (f a) = true := by
        unfold slotAtPos at h ⊢
        rw [(hf a).1, (hf a).2.1, (hf a).2.2]
        exact h
      rw [List.find?_cons_of_neg _ h2, List.find?_cons_of_neg _ h]
      exact ih

theorem repairFlag_id (db : DB) (s : Slot) : (repairFlag db s).id = s.id := by
  unfold repairFlag
  split <;> rfl

theorem repairFlag_pos (db : DB) (s : Slot) :
    (repairFlag db s).shelf = s.shelf ∧ (repairFlag db s).row = s.row ∧
      (repairFlag db s).col = s.col := by
  unfold repairFlag
  split <;> exact ⟨rfl, rfl, rfl⟩

theorem partner_repair (db : DB) (sid : Nat) :
    next_col_partner_slot_id (repair_slot_occupancy db) sid =
      next_col_partner_slot_id db sid := by
  unfold next_col_partner_slot_id slot_id_to_tuple
  rw [repair_slots_shape db, find?_slotById_map_stable (repairFlag_id db)]
  rcases h : db.slots.find? (slotById sid) with _ | s0
  · rfl
  · simp only [Option.map_some']
    rw [(repairFlag_pos db s0).1, (repairFlag_pos db s0).2.1,
      (repairFlag_pos db s0).2.2]
    rw [find?_slotAtPos_map_stable (repairFlag_pos db)]
    rcases h2 : db.slots.find? (slotAtPos s0.shelf s0.row (s0.col + 1)) with _ | s1
    · rfl
    · simp only [Option.map_some']
      rw [repairFlag_id db s1]

theorem flatMap_congr {α β : Type} {f g : α → List β} :
    ∀ {l : List α}, (∀ a ∈ l, f a = g a) → l.flatMap f = l.flatMap g := by
  intro l
  induction l with
  | nil => intro _; rfl
  | cons a t ih =>
    intro h
    rw [List.flatMap_cons, List.flatMap_cons, h a (List.mem_cons_self a t),
      ih fun x hx => h x (List.mem_cons_of_mem a hx)]

theorem seenList_repair (db : DB) :
    seenList (repair_slot_occupancy db) = seenList db := by
  unfold seenList
  have hp : (repair_slot_occupancy db).prescriptions = db.prescriptions := rfl
  rw [hp]
  apply flatMap_congr
  intro p _
  rcases hsl : p.slotId with _ | sid
  · simp only [hsl]
  · simp only [hsl]
    rw [partner_repair]

theorem repair_idem (db : DB) :
    repair_slot_occupancy (repair_slot_occupancy db) = repair_slot_occupancy db := by
  have hsl : (repair_slot_occupancy (repair_slot_occupancy db)).slots =
      (repair_slot_occupancy db).slots := by
    rw [repair_slots_shape (repair_slot_occupancy db), repair_slots_shape db,
      List.map_map]
    apply List.map_congr_left
    intro s _
    dsimp only [Function.comp]
    unfold repairFlag
    rw [seenList_repair]
    by_cases h : s.id ∈ seenList db
    · rw [if_pos h, if_pos (show (setOcc true s).id ∈ seenList db from h)]
      rfl
    · rw [if_neg h, if_neg (show ¬ (setOcc false s).id ∈ seenList db from h)]
      rfl
  have hshape : repair_slot_occupancy (repair_slot_occupancy db) =
      { repair_slot_occupancy db with
        slots := (repair_slot_occupancy (repair_slot_occupancy db)).slots } := rfl
  rw [hshape, hsl]

/-! ### Claim theorems -/

/-- C3 (amended): for a fixed section bound and a fixed occupancy snapshot,
`find_slot_in_section` is deterministic, a failed scan means no candidate
exists, and a returned slot is the lexicographically-earliest (row first,
then column) free fit within the scanned window — the first row from
`start_col`, the last row up to `end_col`, and every other row capped at
column 10000 (the amendment forced by the hard-coded safe cap), with each
row further clamped to its populated maximum column (subsumed by slot
existence inside `scanCand`). -/
theorem claim_C3 (db : DB) (sh : Str) (sr : Char) (sc : Nat) (er : Char)
    (ec : Nat) (basket : Str) (hWF : WFdb db) (h65 : 65 ≤ sr.toNat)
    (h90s : sr.toNat ≤ 90) (h90e : er.toNat ≤ 90) (hsc : 1 ≤ sc) :
    findSectionSpec db sh sr sc er ec basket := by
  refine ⟨?_, ?_, ?_⟩
  · intro x y hx hy
    rw [← hx, ← hy]
  · exact find_eq_none_iff hWF h65 h90s h90e hsc
  · intro sids sh' h
    exact find_eq_some_spec hWF h65 h90s h90e hsc h

/-- C3 counterexample: with the single slot F-A10001 free and the section
spanning rows A-B, the claimed scan policy (full populated column range on a
non-final row, no cap) has a fit at (A, 10001), yet the code returns no fit
because it stops at the hard-coded column cap 10000. -/
theorem claim_C3_counterexample :
    claimedCand c3db shelfF 'A' 1 'B' 1 smallStr 'A' 10001 ∧
    find_slot_in_section c3db shelfF 'A' 1 'B' 1 smallStr = none := by
  constructor
  · refine ⟨le_refl _, by decide, fun _ => by omega, fun h => absurd h (by decide),
      ⟨10001, by decide, le_refl _⟩, ?_⟩
    refine ⟨⟨1, shelfF, 'A', 10001, false⟩, by decide, rfl, rfl, rfl, rfl,
      fun h => absurd h (by decide)⟩
  · rw [find_eq_none_iff (by decide) (by decide) (by decide) (by decide) (le_refl 1)]
    rintro r c ⟨h1, h2, ⟨hlo, hhi⟩, s, hs, g1, g2, g3, -, -⟩
    have hseq : s = ⟨1, shelfF, 'A', 10001, false⟩ := by
      have : c3db.slots = [⟨1, shelfF, 'A', 10001, false⟩] := rfl
      rw [this] at hs
      simpa using hs
    rw [hseq] at g2 g3
    have hr : r = 'A' := g2.symm
    subst hr
    rw [if_neg (by decide : ¬('A' : Char) = 'B')] at hhi
    simp only at g3
    omega

/-- C3 witness: the specification instantiated on a concrete one-slot state. -/
theorem claim_C3_witness :
    WFdb w3db ∧ 65 ≤ ('A' : Char).toNat ∧ ('A' : Char).toNat ≤ 90 ∧ 1 ≤ 1 ∧
    findSectionSpec w3db shelfF 'A' 1 'A' 1 smallStr :=
  ⟨by decide, by decide, by decide, le_refl 1,
    claim_C3 w3db shelfF 'A' 1 'A' 1 smallStr (by decide) (by decide) (by decide)
      (by decide) (le_refl 1)⟩

/-- C4: every large-basket result `[s1, s2]` of `find_slot_in_section` names
two existing slots with `s2` on the same shelf and row as `s1` at column
`s1.col + 1`, both unoccupied in the scanned snapshot; a candidate whose
neighbour is missing or occupied is passed over, never paired across rows. -/
theorem claim_C4 {db : DB} {sh : Str} {sr er : Char} {sc ec : Nat}
    {sids : List Nat} {sh' : Str}
    (h : find_slot_in_section db sh sr sc er ec largeStr = some (sids, sh')) :
    ∃ s1 ∈ db.slots, ∃ s2 ∈ db.slots, sids = [s1.id, s2.id] ∧
      s2.shelf = s1.shelf ∧ s2.row = s1.row ∧ s2.col = s1.col + 1 ∧
      s1.occupied = false ∧ s2.occupied = false := by
  unfold find_slot_in_section at h
  obtain ⟨-, r, -, hro⟩ := findRows_eq_some_exists h
  obtain ⟨c, hfa⟩ := rowOutcome_some_fitAt hro
  obtain ⟨s1, hm1, g1, g2, g3, hocc, hcase⟩ := fitAt_eq_some hfa
  rcases hcase with ⟨hnl, -⟩ | ⟨-, s2, hm2, k1, k2, k3, hocc2, hsids⟩
  · exact absurd rfl hnl
  · exact ⟨s1, hm1, s2, hm2, hsids, by rw [k1, g1], by rw [k2, g2],
      by rw [k3, g3], hocc, hocc2⟩

/-- C4 witness: a successful large-basket scan on a concrete two-slot state. -/
theorem claim_C4_witness :
    find_slot_in_section w4db shelfF 'A' 1 'A' 2 largeStr =
      some ([1, 2], shelfF) ∧
    ∃ s1 ∈ w4db.slots, ∃ s2 ∈ w4db.slots, [1, 2] = [s1.id, s2.id] ∧
      s2.shelf = s1.shelf ∧ s2.row = s1.row ∧ s2.col = s1.col + 1 ∧
      s1.occupied = false ∧ s2.occupied = false :=
  ⟨by decide, @claim_C4 w4db shelfF 'A' 'A' 1 2 [1, 2] shelfF (by decide)⟩

/-- C5: `find_with_overflow` returns the primary section result when one
exists; otherwise it retries the scan against the Overflow section verbatim
(returning none when Overflow is unconfigured or exhausted), and a slot
returned through the fallback is never a candidate of the primary section. -/
theorem claim_C5 (db : DB) (letter basket : Str) (hWF : WFdb db) :
    overflowSpec db letter basket := by
  constructor
  · intro res h
    unfold find_next_available_slot_with_overflow
    simp only [h]
  · intro hnone
    refine ⟨?_, ?_, ?_⟩
    · intro hover
      unfold find_next_available_slot_with_overflow
      simp only [hnone, hover]
    · intro sh sr sc er ec hover
      unfold find_next_available_slot_with_overflow
      simp only [hnone, hover]
    · rintro sids sh' hres psh psr psc per pec hsec i1 rest hsids s hs hsid hcand
      obtain ⟨b1, b2, b3, b4, b5, b6⟩ := get_letter_section_bounds hsec
      have hfind_none : find_slot_in_section db psh psr psc per pec basket = none := by
        unfold find_next_available_slot_primary at hnone
        simp only [hsec] at hnone
        exact hnone
      rw [find_eq_none_iff hWF b1 b2 b5 b3] at hfind_none
      exact hfind_none s.row s.col hcand

/-- C5 witness: the overflow specification instantiated on a concrete state
with a configured primary section. -/
theorem claim_C5_witness : WFdb w5db ∧ overflowSpec w5db "A".toList smallStr :=
  ⟨by decide, claim_C5 w5db "A".toList smallStr (by decide)⟩

/-- C10 (implicit): the large-basket partner check is not clamped to the
section's `end_col` — when the only free in-window slot sits at
(end_row, end_col) and the shelf continues with a free slot at end_col + 1 on
that row, the scan returns that pair, whose second slot lies beyond the
declared bound (its column exceeds `end_col`). -/
theorem claim_C10 (db : DB) (sh : Str) (sr : Char) (sc : Nat) (er : Char)
    (ec : Nat) (s s' : Slot) (hWF : WFdb db) (h65 : 65 ≤ sr.toNat)
    (h90s : sr.toNat ≤ 90) (h90e : er.toNat ≤ 90) (hsc : 1 ≤ sc) (hec : 1 ≤ ec)
    (hse : sr.toNat ≤ er.toNat) (hscec : sr = er → sc ≤ ec)
    (hs : s ∈ db.slots) (hs1 : s.shelf = sh) (hs2 : s.row = er)
    (hs3 : s.col = ec) (hs4 : s.occupied = false)
    (ht : s' ∈ db.slots) (ht1 : s'.shelf = sh) (ht2 : s'.row = er)
    (ht3 : s'.col = ec + 1) (ht4 : s'.occupied = false)
    (honly : ∀ t ∈ db.slots, inRegion sh sr sc er ec t → t.occupied = false →
      t.row = er ∧ t.col = ec) :
    find_slot_in_section db sh sr sc er ec largeStr = some ([s.id, s'.id], sh) ∧
      ec < s'.col := by
  have hcand : scanCand db sh sr sc er ec largeStr er ec := by
    refine ⟨hse, le_refl _, ⟨?_, ?_⟩, s, hs, hs1, hs2, hs3, hs4,
      fun _ => ⟨s', ht, ht1, ht2, by omega, ht4⟩⟩
    · by_cases h : er = sr
      · rw [if_pos h]
        exact hscec h.symm
      · rw [if_neg h]
        exact hec
    · rw [if_pos rfl]
  rcases hf : find_slot_in_section db sh sr sc er ec largeStr with _ | res
  · rw [find_eq_none_iff hWF h65 h90s h90e hsc] at hf
    exact absurd hcand (hf er ec)
  · obtain ⟨sids, sh'⟩ := res
    obtain ⟨hsh, r, c, hc, hmin, hfa⟩ := find_eq_some_spec hWF h65 h90s h90e hsc hf
    obtain ⟨hb1, hb2, hcol, t0, hts, g1, g2, g3, g4, -⟩ := hc
    have hreg : inRegion sh sr sc er ec t0 := by
      refine ⟨g1, ?_, ?_, ?_⟩
      · rw [g2]
        exact hb1
      · rw [g2]
        exact hb2
      · rw [g2, g3]
        exact hcol
    obtain ⟨hrow0, hcol0⟩ := honly t0 hts hreg g4
    have hr : r = er := by rw [← g2]; exact hrow0
    have hcc : c = ec := by rw [← g3]; exact hcol0
    subst hr
    subst hcc
    have hfind1 : db.slots.find? (slotAtPos sh r c) = some s :=
      (find?_pos_eq_some_iff hWF).mpr ⟨hs, hs1, hs2, hs3⟩
    have hfind2 : db.slots.find? (slotAtPos sh r (c + 1)) = some s' := by
      refine (find?_pos_eq_some_iff hWF).mpr ⟨ht, ht1, ht2, by omega⟩
    have heval : fitAt db sh largeStr r c = some [s.id, s'.id] := by
      unfold fitAt
      simp only [hfind1, hs4, hfind2, ht4]
      simp
    rw [heval] at hfa
    have hseq := Option.some.inj hfa
    subst hseq
    subst hsh
    exact ⟨rfl, by omega⟩

/-- C10 witness: on a 1x2 shelf with section bound A1-A1, the large-basket
scan pairs A1 with A2, stepping outside the declared bound. -/
theorem claim_C10_witness :
    WFdb w10db ∧
    (∀ t ∈ w10db.slots, inRegion shelfF 'A' 1 'A' 1 t → t.occupied = false →
      t.row = 'A' ∧ t.col = 1) ∧
    find_slot_in_section w10db shelfF 'A' 1 'A' 1 largeStr =
      some ([1, 2], shelfF) ∧ 1 < 2 :=
  ⟨by decide, by decide,
    claim_C10 w10db shelfF 'A' 1 'A' 1 ⟨1, shelfF, 'A', 1, false⟩
      ⟨2, shelfF, 'A', 2, false⟩ (by decide) (by decide) (by decide) (by decide)
      (le_refl 1) (le_refl 1) (le_refl _) (fun _ => le_refl 1) (by decide) rfl rfl
      rfl rfl (by decide) rfl rfl rfl rfl (by decide)⟩


/-- C1: after `repair_slot_occupancy`, a slot is occupied exactly when some
live prescription references it, or references the slot one column to its
left on the same shelf row with a large basket; and reconciling twice equals
reconciling once. -/
theorem claim_C1 (db : DB) (hWF : WFdb db) : reconcileSpec db := by
  constructor
  · intro s hs
    rw [repair_slots_shape db] at hs
    obtain ⟨s0, hs0, rfl⟩ := List.mem_map.mp hs
    have hi1 : 1 ≤ s0.id := hWF.2.2 s0 hs0
    unfold repairFlag
    by_cases h : s0.id ∈ seenList db
    · rw [if_pos h]
      refine iff_of_true rfl ?_
      exact (seen_iff_target hWF hi1).mp h
    · rw [if_neg h]
      refine iff_of_false (by simp [setOcc]) ?_
      intro htgt
      exact h ((seen_iff_target hWF hi1).mpr htgt)
  · exact repair_idem db

/-- C1 witness: the reconciliation specification on a concrete state with one
large-basket prescription, a partner slot and a stale-occupied slot. -/
theorem claim_C1_witness : WFdb c1db ∧ reconcileSpec c1db :=
  ⟨by decide, claim_C1 c1db (by decide)⟩

/-- C2 (code bug shown at the failing input): in `c2db` prescriptions 1 and 2
share slot 1; deleting prescription 1 flips slot 1 to free even though the
sibling prescription 2 still references it — the deletion path frees a shared
family-bin slot unconditionally. -/
theorem claim_C2_code_bug :
    delete_selected_prescriptions c2db [1] =
      ⟨[⟨1, shelfF, 'A', 1, false⟩], [⟨2, 1, some smallStr, some 1⟩],
        [], [], []⟩ := by
  decide

/-- C6 (code bug shown at the failing input): editing the already-populated
1x1 shelf F to 1 row x 2 columns updates the shelves metadata but creates no
slot record for the new column (F, 'A', 2), because
`populate_slots_for_shelf` is a no-op whenever the shelf has any slots. -/
theorem claim_C6_code_bug :
    apply_edit c6db shelfF shelfF 1 2 =
      some ⟨[⟨1, shelfF, 'A', 1, false⟩], [], [⟨shelfF, 1, 2⟩], [], []⟩ := by
  decide

/-- C7: `is_slot_in_letter_section` is unconditionally true for the Overflow
letter, an unconfigured section or an unresolvable slot id, and otherwise
true exactly when the slot's shelf matches, its row lies in
[start_row, end_row], and the column bound is enforced only on the two
boundary rows. -/
theorem claim_C7 (db : DB) (letter : Str) (sid : Nat) :
    membershipSpec db letter sid := by
  refine ⟨?_, ?_, ?_, ?_⟩
  · intro h
    unfold is_slot_in_letter_section
    rw [if_pos (show (letter == overflowStr) = true by simpa using h)]
  · intro h
    unfold is_slot_in_letter_section
    by_cases hov : (letter == overflowStr) = true
    · rw [if_pos hov]
    · rw [if_neg hov]
      simp only [h]
  · intro h
    unfold is_slot_in_letter_section
    by_cases hov : (letter == overflowStr) = true
    · rw [if_pos hov]
    · rw [if_neg hov]
      rcases hsec : get_letter_section db letter with _ | sec
      · simp only [hsec]
      · obtain ⟨sh, sr, sc, er, ec⟩ := sec
        simp only [hsec, h]
  · intro sh sr sc er ec sname row col hno hsec htup
    unfold is_slot_in_letter_section
    rw [if_neg (show ¬ (letter == overflowStr) = true by simpa using hno)]
    simp only [hsec, htup]
    by_cases h1 : sname = sh
    · rw [if_neg (show ¬ (sname != sh) = true by simp [h1])]
      by_cases h2 : row < sr
      · rw [if_pos h2]
        refine iff_of_false (by simp) ?_
        rintro ⟨-, hge, -⟩
        exact absurd h2 (not_lt.mpr hge)
      · rw [if_neg h2]
        by_cases h3 : row > er
        · rw [if_pos h3]
          refine iff_of_false (by simp) ?_
          rintro ⟨-, -, hle, -⟩
          exact absurd h3 (not_lt.mpr hle)
        · rw [if_neg h3]
          by_cases h4 : row = sr ∧ col < sc
          · rw [if_pos (show (row == sr && decide (col < sc)) = true by
              simp [h4.1, h4.2])]
            refine iff_of_false (by simp) ?_
            rintro ⟨-, -, -, himp, -⟩
            exact absurd (himp h4.1) (not_le.mpr h4.2)
          · rw [if_neg (show ¬ (row == sr && decide (col < sc)) = true by
              simp only [Bool.and_eq_true, beq_iff_eq, decide_eq_true_eq]
              exact h4)]
            by_cases h5 : row = er ∧ ec < col
            · rw [if_pos (show (row == er && decide (ec < col)) = true by
                simp [h5.1, h5.2])]
              refine iff_of_false (by simp) ?_
              rintro ⟨-, -, -, -, himp⟩
              exact absurd (himp h5.1) (not_le.mpr h5.2)
            · rw [if_neg (show ¬ (row == er && decide (ec < col)) = true by
                simp only [Bool.and_eq_true, beq_iff_eq, decide_eq_true_eq]
                exact h5)]
              refine iff_of_true rfl
                ⟨h1, not_lt.mp h2, not_lt.mp h3, ?_, ?_⟩
              · intro hre
                by_contra hcc
                exact h4 ⟨hre, not_le.mp hcc⟩
              · intro hre
                by_contra hcc
                exact h5 ⟨hre, not_le.mp hcc⟩
    · rw [if_pos (show (sname != sh) = true by simp [h1])]
      refine iff_of_false (by simp) ?_
      rintro ⟨h, -⟩
      exact h1 h

/-- C7 witness: the membership specification instantiated on a concrete state
with section A mapped to F rows B-D, columns 5-15, and slot F-B5 in-section. -/
theorem claim_C7_witness :
    membershipSpec w7db "A".toList 1 ∧
      is_slot_in_letter_section w7db "A".toList 1 = true :=
  ⟨claim_C7 w7db "A".toList 1, by decide⟩

/-- C8 (code bug shown at the failing input): for patient 1 whose name is the
whitespace-only string " ", `get_patient_letter` raises an uncaught
IndexError (modelled as `none`) instead of returning the default "A" —
`name.strip().split()` is empty and the `[-1]` indexing fails before the
`if last else "A"` guard can apply. -/
theorem claim_C8_code_bug : get_patient_letter c8db 1 = none := by
  decide

/-! ### String lemmas for the label codec -/

theorem mem_of_getLast?_eq_some {l : List Char} {a : Char}
    (h : l.getLast? = some a) : a ∈ l := by
  obtain ⟨hne, heq⟩ := List.mem_getLast?_eq_getLast (Option.mem_def.mpr h)
  rw [heq]
  exact List.getLast_mem hne

theorem digitChar_mem_digits09 : ∀ d, d < 10 → Nat.digitChar d ∈ digits09 := by
  decide

theorem digitChar_toNat : ∀ d, d < 10 → (Nat.digitChar d).toNat = 48 + d := by
  decide

theorem digits09_facts : ∀ c ∈ digits09, c.toUpper = c ∧ isWs c = false ∧
    c.isDigit = true ∧ ¬ c = '-' ∧ ¬ c = '+' ∧ ¬ c = ' ' := by
  decide

theorem natToDecAux_ne_nil : ∀ fuel n, n < fuel → natToDecAux fuel n ≠ [] := by
  intro fuel
  induction fuel with
  | zero => intro n h; omega
  | succ f ih =>
    intro n _
    unfold natToDecAux
    by_cases h10 : n < 10
    · rw [if_pos h10]
      simp
    · rw [if_neg h10]
      simp

theorem natToDecAux_mem : ∀ fuel n, n < fuel →
    ∀ c ∈ natToDecAux fuel n, c ∈ digits09 := by
  intro fuel
  induction fuel with
  | zero => intro n h; omega
  | succ f ih =>
    intro n hn c hc
    unfold natToDecAux at hc
    by_cases h10 : n < 10
    · rw [if_pos h10] at hc
      have : c = Nat.digitChar n := by simpa using hc
      rw [this]
      exact digitChar_mem_digits09 n h10
    · rw [if_neg h10] at hc
      rw [List.mem_append] at hc
      rcases hc with hc | hc
      · have hdiv : n / 10 < n := Nat.div_lt_self (by omega) (by omega)
        exact ih (n / 10) (by omega) c hc
      · have : c = Nat.digitChar (n % 10) := by simpa using hc
        rw [this]
        exact digitChar_mem_digits09 (n % 10) (by omega)

theorem digitsToNat_append_digit (ds : Str) (c : Char) :
    digitsToNat (ds ++ [c]) = 10 * digitsToNat ds + (c.toNat - 48) := by
  unfold digitsToNat
  rw [List.foldl_append]
  rfl

theorem digitsToNat_natToDecAux : ∀ fuel n, n < fuel →
    digitsToNat (natToDecAux fuel n) = n := by
  intro fuel
  induction fuel with
  | zero => intro n h; omega
  | succ f ih =>
    intro n hn
    unfold natToDecAux
    by_cases h10 : n < 10
    · rw [if_pos h10]
      have hd := digitChar_toNat n h10
      unfold digitsToNat
      simp only [List.foldl_cons, List.foldl_nil]
      omega
    · rw [if_neg h10]
      rw [digitsToNat_append_digit]
      have hdiv : n / 10 < n := Nat.div_lt_self (by omega) (by omega)
      rw [ih (n / 10) (by omega)]
      have hd := digitChar_toNat (n % 10) (by omega)
      omega

theorem natToDec_ne_nil (n : Nat) : natToDec n ≠ [] :=
  natToDecAux_ne_nil (n + 1) n (by omega)

theorem natToDec_mem (n : Nat) : ∀ c ∈ natToDec n, c ∈ digits09 :=
  natToDecAux_mem (n + 1) n (by omega)

theorem digitsToNat_natToDec (n : Nat) : digitsToNat (natToDec n) = n :=
  digitsToNat_natToDecAux (n + 1) n (by omega)

theorem dropWhile_isWs_eq_self {s : Str} (h : ∀ c ∈ s, isWs c = false) :
    s.dropWhile isWs = s := by
  cases s with
  | nil => rfl
  | cons c cs =>
    rw [List.dropWhile_cons, if_neg]
    simp [h c (List.mem_cons_self c cs)]

theorem trim_eq_self_of_all {s : Str} (h : ∀ c ∈ s, isWs c = false) :
    trim s = s := by
  unfold trim
  rw [dropWhile_isWs_eq_self h]
  rw [dropWhile_isWs_eq_self (fun c hc => h c (List.mem_reverse.mp hc))]
  exact List.reverse_reverse s

theorem upperStr_eq_self {s : Str} (h : ∀ c ∈ s, c.toUpper = c) :
    upperStr s = s :=
  (List.map_congr_left h).trans (List.map_id s)

theorem replaceStrAux_cons_ne {pat rep : Str} {c : Char}
    (hne : pat.head? ≠ some c) (fuel : Nat) (s : Str) :
    replaceStrAux (fuel + 1) (c :: s) pat rep =
      c :: replaceStrAux fuel s pat rep := by
  cases pat with
  | nil =>
    show (if (!List.isEmpty [] && List.isPrefixOf [] (c :: s) && !(c :: s).isEmpty)
      then _ else _) = _
    simp [replaceStrAux]
  | cons p0 pr =>
    have hp0 : ¬ p0 = c := fun hh => hne (by rw [hh]; rfl)
    show (if (!(p0 :: pr).isEmpty && List.isPrefixOf (p0 :: pr) (c :: s) &&
      !(c :: s).isEmpty) then _ else _) = _
    have : List.isPrefixOf (p0 :: pr) (c :: s) = false := by
      show (p0 == c && List.isPrefixOf pr s) = false
      simp [hp0]
    rw [this]
    simp

theorem replaceStrAux_not_mem {pat rep : Str} :
    ∀ (s : Str) (fuel : Nat), (∀ p0, pat.head? = some p0 → p0 ∉ s) →
      s.length ≤ fuel → replaceStrAux fuel s pat rep = s := by
  intro s
  induction s with
  | nil =>
    intro fuel _ _
    cases fuel with
    | zero => rfl
    | succ f => simp [replaceStrAux]
  | cons c cs ih =>
    intro fuel h hlen
    cases fuel with
    | zero => simp at hlen
    | succ f =>
      have hne : pat.head? ≠ some c := by
        intro hh
        exact h c hh (List.mem_cons_self c cs)
      rw [replaceStrAux_cons_ne hne]
      rw [ih f (fun p0 hp0 hmem => h p0 hp0 (List.mem_cons_of_mem c hmem))
        (by simp at hlen; omega)]

theorem replaceStr_not_mem {pat rep : Str} {s : Str}
    (h : ∀ p0, pat.head? = some p0 → p0 ∉ s) : replaceStr s pat rep = s :=
  replaceStrAux_not_mem s s.length h (le_refl _)

theorem replaceStrAux_dash {rep : Str} {b : Str} (hb : b.head? ≠ some '-')
    (f : Nat) :
    replaceStrAux (f + 1) ('-' :: b) ['-', '-'] rep =
      '-' :: replaceStrAux f b ['-', '-'] rep := by
  cases b with
  | nil =>
    show (if (!(['-', '-'] : Str).isEmpty && List.isPrefixOf ['-', '-'] ['-'] &&
      !(['-'] : Str).isEmpty) then _ else _) = _
    simp [List.isPrefixOf]
  | cons c bs =>
    have hc : ¬ ('-' : Char) = c := fun hh => hb (by rw [← hh]; rfl)
    show (if (!(['-', '-'] : Str).isEmpty &&
      List.isPrefixOf ['-', '-'] ('-' :: c :: bs) &&
      !('-' :: c :: bs).isEmpty) then _ else _) = _
    have : List.isPrefixOf ['-', '-'] ('-' :: c :: bs) = false := by
      show (('-' : Char) == '-' && (('-' : Char) == c && List.isPrefixOf [] bs)) = false
      simp [hc]
    rw [this]
    simp

theorem replaceStrAux_dd {rep : Str} :
    ∀ (a : Str) (b : Str) (fuel : Nat), '-' ∉ a → b.head? ≠ some '-' →
      '-' ∉ b → (a ++ '-' :: b).length ≤ fuel →
      replaceStrAux fuel (a ++ '-' :: b) ['-', '-'] rep = a ++ '-' :: b := by
  intro a
  induction a with
  | nil =>
    intro b fuel _ hbh hbm hlen
    cases fuel with
    | zero => simp at hlen
    | succ f =>
      rw [List.nil_append]
      rw [replaceStrAux_dash hbh]
      rw [replaceStrAux_not_mem b f
        (fun p0 hp0 => by
          have h2 : ('-' : Char) = p0 := by simpa using hp0
          rw [← h2]
          exact hbm)
        (by simp at hlen; omega)]
  | cons x a' ih =>
    intro b fuel hax hbh hbm hlen
    have hx : ¬ x = '-' := fun hh => hax (hh ▸ List.mem_cons_self x a')
    cases fuel with
    | zero => simp at hlen
    | succ f =>
      rw [List.cons_append]
      rw [replaceStrAux_cons_ne (fun hh => hx (by simpa using hh.symm))]
      rw [ih b f (fun hm => hax (List.mem_cons_of_mem x hm)) hbh hbm
        (by simp at hlen ⊢; omega)]

theorem replaceStr_dd {rep : Str} {a b : Str} (ha : '-' ∉ a)
    (hbh : b.head? ≠ some '-') (hbm : '-' ∉ b) :
    replaceStr (a ++ '-' :: b) ['-', '-'] rep = a ++ '-' :: b :=
  replaceStrAux_dd a b (a ++ '-' :: b).length ha hbh hbm (le_refl _)

theorem splitOnChar_not_mem {sep : Char} : ∀ {s : Str}, sep ∉ s →
    splitOnChar sep s = [s] := by
  intro s
  induction s with
  | nil => intro _; rfl
  | cons c cs ih =>
    intro h
    have hc : ¬ (c == sep) = true := by
      simp only [beq_iff_eq]
      intro hh
      exact h (hh ▸ List.mem_cons_self c cs)
    unfold splitOnChar
    rw [if_neg hc, ih (fun hm => h (List.mem_cons_of_mem c hm))]

theorem splitOnChar_append {sep : Char} : ∀ {a b : Str}, sep ∉ a →
    splitOnChar sep (a ++ sep :: b) = a :: splitOnChar sep b := by
  intro a
  induction a with
  | nil =>
    intro b _
    rw [List.nil_append]
    simp only [splitOnChar]
    rw [if_pos (by simp)]
  | cons x a' ih =>
    intro b h
    have hx : ¬ (x == sep) = true := by
      simp only [beq_iff_eq]
      intro hh
      exact h (hh ▸ List.mem_cons_self x a')
    rw [List.cons_append]
    simp only [splitOnChar]
    rw [if_neg hx]
    rw [ih (fun hm => h (List.mem_cons_of_mem x hm))]

theorem isDigitStr_false_of_dash {s : Str} (h : '-' ∈ s) :
    isDigitStr s = false := by
  unfold isDigitStr
  have : s.all Char.isDigit = false := by
    rw [← Bool.not_eq_true, List.all_eq_true]
    push_neg
    exact ⟨'-', h, by decide⟩
  rw [this, Bool.and_false]

theorem parseInt?_digits {s : Str} (hne : s ≠ [])
    (hd : ∀ c ∈ s, c ∈ digits09) :
    parseInt? s = some ((digitsToNat s : Nat) : Int) := by
  unfold parseInt?
  have htrim : trim s = s :=
    trim_eq_self_of_all fun c hc => (digits09_facts c (hd c hc)).2.1
  rw [htrim]
  cases s with
  | nil => exact absurd rfl hne
  | cons c cs =>
    have hc9 := digits09_facts c (hd c (List.mem_cons_self c cs))
    have hplus : ¬ (c == '+') = true := by
      simp only [beq_iff_eq]
      exact hc9.2.2.2.2.1
    have hdash : ¬ (c == '-') = true := by
      simp only [beq_iff_eq]
      exact hc9.2.2.2.1
    dsimp only
    rw [if_neg hplus, if_neg hdash, if_pos]
    unfold isDigitStr
    simp only [List.isEmpty_cons, Bool.not_false, Bool.true_and]
    rw [List.all_eq_true]
    intro x hx
    exact (digits09_facts x (hd x hx)).2.2.1


/-- C9 counterexample: slot 1 exists on the shelf named "A-B"; its display
label "A-B-C1" parses as the three-part form shelf "A", row "B", column text
"C1", whose int() conversion fails, so the round trip loses the slot instead
of recovering id 1. -/
theorem claim_C9_counterexample :
    (c9db.slots.any fun s => s.id == 1) = true ∧
    label_to_slot_id c9db (slot_id_to_label c9db 1) = none := by
  decide

/-- C9 (amended): the label round trip recovers the slot id for every
existing slot whose shelf name and row letter contain no hyphen and no
whitespace and are unchanged by uppercasing (the counterexample shows a
hyphenated shelf name breaks the round trip; whitespace is stripped or
deleted and lowercase is uppercased by the parser, so those characters break
it the same way). -/
theorem claim_C9 (db : DB) (s : Slot) (hWF : WFdb db) (hs : s ∈ db.slots)
    (hshelf : ∀ ch ∈ s.shelf, ¬ ch = '-' ∧ isWs ch = false ∧ ch.toUpper = ch)
    (hrowU : s.row.toUpper = s.row) (hrowD : ¬ s.row = '-')
    (hrowW : isWs s.row = false) :
    label_to_slot_id db (slot_id_to_label db s.id) = some s.id := by
  have hfind : db.slots.find? (slotById s.id) = some s :=
    (find?_id_eq_some_iff hWF).mpr ⟨hs, rfl⟩
  have hlabel : slot_id_to_label db s.id =
      s.shelf ++ '-' :: s.row :: natToDec s.col := by
    unfold slot_id_to_label
    simp only [hfind]
  rcases hnd : natToDec s.col with _ | ⟨d0, ds⟩
  · exact absurd hnd (natToDec_ne_nil s.col)
  have hdig9 : ∀ c ∈ d0 :: ds, c ∈ digits09 := by
    rw [← hnd]
    exact natToDec_mem s.col
  have ha : '-' ∉ s.shelf := fun hm => (hshelf '-' hm).1 rfl
  have hbh : (s.row :: d0 :: ds).head? ≠ some '-' := by
    intro hh
    exact hrowD (by simpa using hh)
  have hbm : '-' ∉ s.row :: d0 :: ds := by
    rw [List.mem_cons]
    rintro (h | h)
    · exact hrowD h.symm
    · exact (digits09_facts '-' (hdig9 '-' h)).2.2.2.1 rfl
  have hws : ∀ c ∈ s.shelf ++ '-' :: s.row :: d0 :: ds, isWs c = false := by
    intro c hc
    rw [List.mem_append, List.mem_cons] at hc
    rcases hc with h | h | h
    · exact (hshelf c h).2.1
    · rw [h]
      decide
    · rw [List.mem_cons] at h
      rcases h with h | h
      · rw [h]
        exact hrowW
      · exact (digits09_facts c (hdig9 c h)).2.1
  have hup : ∀ c ∈ s.shelf ++ '-' :: s.row :: d0 :: ds, c.toUpper = c := by
    intro c hc
    rw [List.mem_append, List.mem_cons] at hc
    rcases hc with h | h | h
    · exact (hshelf c h).2.2
    · rw [h]
      decide
    · rw [List.mem_cons] at h
      rcases h with h | h
      · rw [h]
        exact hrowU
      · exact (digits09_facts c (hdig9 c h)).1
  have hspmem : ∀ p0, ([' '] : Str).head? = some p0 →
      p0 ∉ s.shelf ++ '-' :: s.row :: d0 :: ds := by
    intro p0 hp0
    have hp : p0 = ' ' := by
      have h2 : (' ' : Char) = p0 := by simpa using hp0
      exact h2.symm
    rw [hp]
    intro hm
    exact absurd (hws ' ' hm) (by decide)
  have hdashmem : '-' ∈ s.shelf ++ '-' :: s.row :: d0 :: ds := by
    rw [List.mem_append, List.mem_cons]
    exact Or.inr (Or.inl rfl)
  rw [hlabel, hnd]
  unfold label_to_slot_id
  rw [if_neg (show ¬ ((s.shelf ++ '-' :: s.row :: d0 :: ds).isEmpty = true) by
    simp)]
  rw [trim_eq_self_of_all hws, upperStr_eq_self hup, replaceStr_dd ha hbh hbm,
    replaceStr_not_mem hspmem]
  dsimp only
  rw [if_neg (show ¬ (isDigitStr (s.shelf ++ '-' :: s.row :: d0 :: ds) = true) by
    rw [isDigitStr_false_of_dash hdashmem]
    exact Bool.false_ne_true)]
  rw [splitOnChar_append ha, splitOnChar_not_mem hbm]
  dsimp only
  have hparse : parseInt? (d0 :: ds) = some ((s.col : Nat) : Int) := by
    rw [← hnd, parseInt?_digits (natToDec_ne_nil s.col) (natToDec_mem s.col),
      digitsToNat_natToDec]
  rw [hparse]
  dsimp only
  rw [if_neg (not_lt.mpr (Int.natCast_nonneg s.col))]
  rw [Int.toNat_ofNat]
  rw [(find?_pos_eq_some_iff hWF).mpr ⟨hs, rfl, rfl, rfl⟩]
  rfl

/-- C9 witness: the round trip on slot F-B12 of a concrete state. -/
theorem claim_C9_witness :
    WFdb w9db ∧
    (∀ ch ∈ (⟨1, shelfF, 'B', 12, false⟩ : Slot).shelf,
      ¬ ch = '-' ∧ isWs ch = false ∧ ch.toUpper = ch) ∧
    label_to_slot_id w9db (slot_id_to_label w9db 1) = some 1 :=
  ⟨by decide, by decide,
    claim_C9 w9db ⟨1, shelfF, 'B', 12, false⟩ (by decide) (by decide)
      (by decide) (by decide) (by decide) (by decide)⟩

end Pharm
